import Mathlib

/-!
Verification development for the Cubent compiler (src/lexer.py, src/compiler.py).

The Python source is shallowly embedded as executable Lean definitions:
* the Lexer becomes pure functions over a state holding the remaining
  character list plus the (offset, line, column) counters;
* the recursive-descent Parser becomes fuel-indexed functions returning
  `Except PErr (result × LexState)`; every recursive call runs at
  decremented fuel, so the definitions are structural and kernel-reducible;
* the Emitter (`Compiler.write_commands`) becomes a pure function from an
  IR command list to the emitted command lines and the compile-time state.

Python `None` results and Python runtime exceptions (AttributeError,
KeyError, ValueError, IndexError, StopIteration) are modelled explicitly:
a `next()` that falls off the end of the elif chain returns `none`, and a
parser/emitter step that would raise is `.error .crash`.

Character-class predicates model Python's `str.isspace` / `isdigit` /
`isalpha` / `isalnum` / `str.lower` on the ASCII range (every input
considered in this development is ASCII).  Error messages carried by
`CompilationError` are not modelled; only the fact that an error occurs is.
Float literal parsing (`float(body)`) is modelled on the exact decimal
value rather than IEEE-754 doubles; no theorem below depends on it.
Likewise, the source's `CubentType.Void` is accidentally a 1-tuple whose
attribute accesses raise; the model keeps `Void` an ordinary type and
diverges only in the error kind of programs that fail either way (see
`getCType`).
-/

/-! ## Character helpers (ASCII models of the Python predicates) -/

def nulChar : Char := Char.ofNat 0

def pyIsSpace (c : Char) : Bool :=
  c = ' ' || c = '\t' || c = '\n' || c = '\r' || c = Char.ofNat 11 || c = Char.ofNat 12
    || (28 ≤ c.toNat && c.toNat ≤ 31)

def pyIsDigit (c : Char) : Bool :=
  48 ≤ c.toNat && c.toNat ≤ 57

def pyIsAlpha (c : Char) : Bool :=
  (65 ≤ c.toNat && c.toNat ≤ 90) || (97 ≤ c.toNat && c.toNat ≤ 122)

def pyIsAlnum (c : Char) : Bool :=
  pyIsAlpha c || pyIsDigit c

def lowerCh (c : Char) : Char :=
  if 65 ≤ c.toNat && c.toNat ≤ 90 then Char.ofNat (c.toNat + 32) else c

/-- Value of a list of decimal digit characters, as Python `int(body)` computes
it for an all-digit string (most significant digit first). -/
def digitsVal (l : List Char) : Nat :=
  l.foldl (fun a c => 10 * a + (c.toNat - 48)) 0

def digitChar (d : Nat) : Char := Char.ofNat (48 + d)

/-- Decimal rendering of a natural number, as Python `str(n)` produces it.
The first argument is recursion fuel; `natDecimal` supplies `n` itself,
which bounds the digit count. -/
def natDecimalAux : Nat → Nat → List Char
  | 0, _ => []
  | _, 0 => []
  | fuel + 1, n => natDecimalAux fuel (n / 10) ++ [digitChar (n % 10)]

def natDecimal (n : Nat) : List Char :=
  if n = 0 then ['0'] else natDecimalAux n n

/-- Python `str(i)` for an integer. -/
def intChars (i : Int) : List Char :=
  if i < 0 then '-' :: natDecimal (-i).toNat else natDecimal i.toNat

/-! ## Lexer embedding (src/lexer.py) -/

inductive LexKind where
  | EOF | KEYWORD | TYPE | IDENTIFIER
  | BYTE | BOOLEAN | SHORT | INT | LONG | FLOAT | DOUBLE | STRING
  deriving DecidableEq, Repr

structure Position where
  offset : Nat
  line : Nat
  column : Nat
  deriving DecidableEq, Repr

/-- Python `Lexeme`: `type` is `Optional[LexemeType]` (invalid lexemes and
punctuation carry `None`), `body` is `Optional[str]` (EOF carries `None`). -/
structure Lexeme where
  type : Option LexKind
  position : Position
  body : Option (List Char)
  deriving DecidableEq, Repr

structure LexState where
  rest : List Char
  offset : Nat
  line : Nat
  column : Nat
  deriving DecidableEq, Repr

def initState (text : List Char) : LexState := ⟨text, 0, 0, 0⟩

/-- `Lexer.peekch`: the next character, or `"\0"` at end of input. -/
def peekch (s : LexState) : Char := s.rest.headD nulChar

def position (s : LexState) : Position := ⟨s.offset, s.line, s.column⟩

/-- `Lexer.consume`. -/
def consume (s : LexState) : LexState :=
  if peekch s = '\n' then ⟨s.rest.tail, s.offset + 1, s.line + 1, 0⟩
  else ⟨s.rest.tail, s.offset + 1, s.line, s.column + 1⟩

def skipSpaceF : Nat → LexState → LexState
  | 0, s => s
  | fuel + 1, s => if pyIsSpace (peekch s) then skipSpaceF fuel (consume s) else s

/-- `Lexer.skip_space`; the loop consumes one character per iteration, so
`rest.length` rounds of fuel always suffice. -/
def skipSpace (s : LexState) : LexState := skipSpaceF s.rest.length s

/-- The digit-accumulation loop in `Lexer.read_number`
(`while self.peekch().isdigit()`). -/
def numLoopF : Nat → LexState → List Char × LexState
  | 0, s => ([], s)
  | fuel + 1, s =>
    if pyIsDigit (peekch s) then
      let r := numLoopF fuel (consume s)
      (peekch s :: r.1, r.2)
    else ([], s)

def numLoop (s : LexState) : List Char × LexState := numLoopF s.rest.length s

/-- The suffix-classification part of `Lexer.read_number`: given the start
position, the accumulated `body`, and the state after the digit loops,
inspect the (lower-cased) next character for a type suffix and apply the
range checks. -/
def readNumberTail (pos : Position) (body : List Char) (s2 : LexState) : Lexeme × LexState :=
  let ch := lowerCh (peekch s2)
  if ch = 'b' then
    if '.' ∈ body || digitsVal body + 128 > 255 then (⟨none, pos, some body⟩, s2)
    else (⟨some .BYTE, pos, some (body ++ [ch])⟩, consume s2)
  else if ch = 's' then
    if '.' ∈ body || digitsVal body + 32768 > 65535 then (⟨none, pos, some body⟩, s2)
    else (⟨some .SHORT, pos, some (body ++ [ch])⟩, consume s2)
  else if ch = 'l' then
    if '.' ∈ body || digitsVal body + 9223372036854775808 > 18446744073709551615 then
      (⟨none, pos, some body⟩, s2)
    else (⟨some .LONG, pos, some (body ++ [ch])⟩, consume s2)
  else if ch = 'f' then
    -- `float(body) + 3.4E38 > 6.8E38`, modelled on the exact decimal value of
    -- `body` (integer part scaled against the fractional digits).
    if digitsVal (body.filter (· ≠ '.')) >
        34 * 10 ^ (37 + (body.dropWhile (· ≠ '.')).length - (if '.' ∈ body then 1 else 0)) then
      (⟨none, pos, some body⟩, s2)
    else (⟨some .FLOAT, pos, some (body ++ [ch])⟩, consume s2)
  else if ch = 'd' then
    (⟨some .DOUBLE, pos, some (body ++ [ch])⟩, consume s2)
  else
    if '.' ∈ body then (⟨some .DOUBLE, pos, some body⟩, s2)
    else if digitsVal body + 2147483648 ≤ 4294967295 then (⟨some .INT, pos, some body⟩, s2)
    else (⟨none, pos, some body⟩, s2)

/-- `Lexer.read_number` from the point where the digit loop starts. -/
def readNumber (s : LexState) : Lexeme × LexState :=
  let pos := position s
  let r1 := numLoop s
  let r2 :=
    if peekch r1.2 = '.' then
      let s1 := consume r1.2
      let r := numLoop s1
      (r1.1 ++ '.' :: r.1, r.2)
    else r1
  readNumberTail pos r2.1 r2.2

/-- The scanning loop of `Lexer.read_string` after the opening delimiter.
Accumulated body is passed along; returns `(type?, body, state)` where
`type? = none` models the invalid-lexeme returns. -/
def strLoopF : Nat → Char → List Char → LexState → Bool × List Char × LexState
  | 0, _, acc, s => (false, acc, s)
  | fuel + 1, delim, acc, s =>
    if peekch s = delim then (true, acc, s)
    else
      let ch := peekch s
      if ch = '\r' || ch = '\n' || ch = nulChar then (false, acc, s)
      else
        let s1 := consume s
        let acc1 := acc ++ [ch]
        if ch = '\\' then
          let ch2 := peekch s1
          if ch2 = '\\' || ch2 = '"' || ch2 = '\'' then
            strLoopF fuel delim (acc1 ++ [ch2]) (consume s1)
          else (false, acc1, s1)
        else strLoopF fuel delim acc1 s1

/-- `Lexer.read_string`. -/
def readString (s : LexState) : Lexeme × LexState :=
  let pos := position s
  let delim := peekch s
  let s1 := consume s
  let r := strLoopF s1.rest.length delim [delim] s1
  if r.1 then
    (⟨some .STRING, pos, some (r.2.1 ++ [peekch r.2.2])⟩, consume r.2.2)
  else (⟨none, pos, some r.2.1⟩, r.2.2)

def identLoopF : Nat → LexState → List Char × LexState
  | 0, s => ([], s)
  | fuel + 1, s =>
    if pyIsAlnum (peekch s) then
      let r := identLoopF fuel (consume s)
      (peekch s :: r.1, r.2)
    else ([], s)

def lexKeywords : List (List Char) :=
  ["namespace".toList, "import".toList, "as".toList, "function".toList,
   "mcfunction".toList, "var".toList, "if".toList, "else".toList]

def lexTypes : List (List Char) :=
  ["Void".toList, "Any".toList, "Byte".toList, "Boolean".toList, "Short".toList,
   "Int".toList, "Long".toList, "Float".toList, "Double".toList, "String".toList,
   "List".toList, "Compound".toList, "ByteArray".toList, "IntArray".toList,
   "LongArray".toList]

/-- `Lexer.read_identifier`. -/
def readIdentifier (s : LexState) : Lexeme × LexState :=
  let pos := position s
  let r := identLoopF s.rest.length s
  let body := r.1
  let k :=
    if body ∈ lexKeywords then LexKind.KEYWORD
    else if body ∈ lexTypes then LexKind.TYPE
    else if body = "true".toList || body = "false".toList then LexKind.BOOLEAN
    else LexKind.IDENTIFIER
  (⟨some k, pos, some body⟩, r.2)

/-- Skip to end of a `//` comment (`while self.peekch() not in "\r\n\0"`). -/
def lineCommentF : Nat → LexState → LexState
  | 0, s => s
  | fuel + 1, s =>
    if peekch s = '\r' || peekch s = '\n' || peekch s = nulChar then s
    else lineCommentF fuel (consume s)

/-- Skip a `/* ... */` block comment body. -/
def blockCommentF : Nat → LexState → LexState
  | 0, s => s
  | fuel + 1, s =>
    if peekch s = nulChar then s
    else
      let ch := peekch s
      let s1 := consume s
      if ch = '*' then
        if peekch s1 = '/' then consume s1 else blockCommentF fuel s1
      else blockCommentF fuel s1

/-- `Lexer.next`.  Returns `none` exactly where the Python method returns
`None`: when the character after a consumed `/` starts neither `//` nor `/*`,
control falls off the `elif` chain with no `return` statement.  The fuel
argument only bounds the self-recursion after a comment; each such recursion
consumes at least two characters first, so `rest.length + 1` fuel always
suffices. -/
def nextF : Nat → LexState → Option Lexeme × LexState
  | 0, s => (none, s)
  | fuel + 1, s0 =>
    let s := skipSpace s0
    let ch := peekch s
    if ch = nulChar then (some ⟨some .EOF, position s, none⟩, s)
    else if ch = '/' then
      let s1 := consume s
      let ch1 := peekch s1
      if ch1 = '/' then nextF fuel (lineCommentF s1.rest.length (consume s1))
      else if ch1 = '*' then nextF fuel (blockCommentF s1.rest.length (consume s1))
      else (none, s1)
    else if ch = '=' then
      let pos := position s
      let s1 := consume s
      if peekch s1 = '=' then (some ⟨none, pos, some ['=', '=']⟩, consume s1)
      else (some ⟨none, pos, some ['=']⟩, s1)
    else if pyIsDigit ch || ch = '.' then
      let r := readNumber s
      (some r.1, r.2)
    else if ch = '"' || ch = '\'' then
      let r := readString s
      (some r.1, r.2)
    else if pyIsAlpha ch then
      let r := readIdentifier s
      (some r.1, r.2)
    else (some ⟨none, position s, some [ch]⟩, consume s)

def nextTop (s : LexState) : Option Lexeme × LexState :=
  nextF (s.rest.length + 1) s

/-! ## IR and descriptors (src/compiler.py data model) -/

abbrev Name := List Char

/-- The ten `CubentType` class attributes; the five remaining reserved type
names have no corresponding attribute, so using them raises AttributeError. -/
inductive CType where
  | Void | Any | Byte | Boolean | Short | Int | Long | Float | Double | String
  deriving DecidableEq, Repr

/-- Literal operand of a `LOAD` command. `fraw` carries the raw (suffix-
stripped) characters of a float/double literal; Python float parsing and
formatting are not modelled, and no theorem below depends on them. -/
inductive Lit where
  | i (v : Int) | b (v : Bool) | s (v : Name) | fraw (v : Name)
  deriving DecidableEq, Repr

/-- IR command (`Operation` plus its `data` operands; source positions are
carried by the Python `Command` only for diagnostics and are omitted). -/
inductive Cmd where
  | LOAD (ty : CType) (lit : Lit)
  | DECLARE_VAR (name : Name)
  | GET_VAR (name : Name)
  | SET_VAR (name : Name)
  | GET_PROP (name : Name)
  | SET_PROP (name : Name)
  | CALL (path : List Name) (argc : Nat)
  | GET_ARG (index : Nat)
  | DO_IF (block : List Cmd)
  | ADD | SUB | DIV | MUL | EQ | NEQ | OR | AND

/-- `CubentFunction` / `MCFunction` descriptors appended to
`Compiler.functions`. -/
inductive FnDesc where
  | cubent (path : List Name) (params : List (Name × CType)) (ret : CType) (cmds : List Cmd)
  | mc (path : List Name) (params : List (Name × CType)) (ret : CType) (location : Name)

/-- Display helper for `Cmd` (fuel-indexed because of the nested block). -/
def cmdStrF : Nat → Cmd → String
  | _, .LOAD ty lit => "LOAD " ++ reprStr ty ++ " " ++ reprStr lit
  | _, .DECLARE_VAR n => "DECLARE_VAR " ++ String.mk n
  | _, .GET_VAR n => "GET_VAR " ++ String.mk n
  | _, .SET_VAR n => "SET_VAR " ++ String.mk n
  | _, .GET_PROP n => "GET_PROP " ++ String.mk n
  | _, .SET_PROP n => "SET_PROP " ++ String.mk n
  | _, .CALL p argc => "CALL " ++ String.intercalate "." (p.map String.mk) ++ " " ++ toString argc
  | _, .GET_ARG i => "GET_ARG " ++ toString i
  | 0, .DO_IF _ => "DO_IF .."
  | fuel + 1, .DO_IF block =>
      "DO_IF[" ++ String.intercalate ", " (block.map (cmdStrF fuel)) ++ "]"
  | _, .ADD => "ADD"
  | _, .SUB => "SUB"
  | _, .DIV => "DIV"
  | _, .MUL => "MUL"
  | _, .EQ => "EQ"
  | _, .NEQ => "NEQ"
  | _, .OR => "OR"
  | _, .AND => "AND"

instance : Repr Cmd := ⟨fun c _ => Std.Format.text (cmdStrF 100 c)⟩

instance : Repr FnDesc :=
  ⟨fun f _ =>
    match f with
    | .cubent p ps r cs =>
      Std.Format.text ("cubent " ++ String.intercalate "." (p.map String.mk) ++ " params "
        ++ reprStr ps ++ " ret " ++ reprStr r ++ " cmds " ++ reprStr cs)
    | .mc p ps r loc =>
      Std.Format.text ("mc " ++ String.intercalate "." (p.map String.mk) ++ " params "
        ++ reprStr ps ++ " ret " ++ reprStr r ++ " loc " ++ String.mk loc)⟩

def fnPath : FnDesc → List Name
  | .cubent p _ _ _ => p
  | .mc p _ _ _ => p

def fnParams : FnDesc → List (Name × CType)
  | .cubent _ ps _ _ => ps
  | .mc _ ps _ _ => ps

def fnRet : FnDesc → CType
  | .cubent _ _ r _ => r
  | .mc _ _ r _ => r

/-! ## Parser embedding (src/compiler.py, `Compiler.compile_file` etc.)

Parser-level failures:
* `.cerr` models `self.error = CompilationError(...)` followed by `return
  False` (messages are not modelled);
* `.crash` models an uncaught Python exception: `next()` returning `None`
  and the caller dereferencing it (AttributeError), the three-argument
  `CompilationError(...)` calls (TypeError), `getattr(CubentType, t)` for a
  reserved type name (AttributeError), the `enumerate(parameters)` key
  unpacking in the parameter branch of `compile_primary` when it reaches a
  key whose length is not 2 or exhausts the generator (ValueError /
  StopIteration; see `getArgIndexF`), and a ≥2-colon mcfunction location
  (ValueError);
* `.fuelOut` is the fuel bound of the embedding; every theorem below takes
  a successful run as hypothesis or evaluates at ample concrete fuel. -/

inductive PErr where
  | cerr | crash | fuelOut
  deriving DecidableEq, Repr

/-- `lexer.lookahead()` followed by an attribute access: a `None` lexeme
crashes the caller. -/
def look (st : LexState) : Except PErr Lexeme :=
  match nextTop st with
  | (some lx, _) => .ok lx
  | (none, _) => .error .crash

/-- `lexer.next()` followed by an attribute access. -/
def nextL (st : LexState) : Except PErr (Lexeme × LexState) :=
  match nextTop st with
  | (some lx, st') => .ok (lx, st')
  | (none, _) => .error .crash

def bIs (lx : Lexeme) (s : String) : Bool := lx.body == some s.toList

/-- `getattr(CubentType, body)`.  In the source, `CubentType.Void` is —
because of a trailing comma at its definition — a 1-tuple wrapping the
descriptor, so any later attribute access on it (`.path` inside
`write_type_conversion`, reachable when a callee declares a Void-typed
parameter) raises AttributeError.  The model maps `Void` to an ordinary
constant, diverging only in the kind of error such (in any case failing)
programs report; no theorem depends on that branch. -/
def getCType (b : Name) : Except PErr CType :=
  if b = "Void".toList then .ok .Void
  else if b = "Any".toList then .ok .Any
  else if b = "Byte".toList then .ok .Byte
  else if b = "Boolean".toList then .ok .Boolean
  else if b = "Short".toList then .ok .Short
  else if b = "Int".toList then .ok .Int
  else if b = "Long".toList then .ok .Long
  else if b = "Float".toList then .ok .Float
  else if b = "Double".toList then .ok .Double
  else if b = "String".toList then .ok .String
  else .error .crash

abbrev Imports := List (Name × List Name)
abbrev Params := List (Name × CType)

/-- Python dict assignment `d[k] = v` on an insertion-ordered assoc list. -/
def dictUpd {α : Type} (l : List (Name × α)) (k : Name) (v : α) : List (Name × α) :=
  if l.any (fun p => p.1 == k) then l.map (fun p => if p.1 == k then (k, v) else p)
  else l ++ [(k, v)]

/-- `lexeme.body in imports` (dict key membership; `None in d` is `False`). -/
def impHas (imp : Imports) (b : Option Name) : Bool :=
  match b with
  | some n => imp.any (fun p => p.1 == n)
  | none => false

def impGet (imp : Imports) (n : Name) : List Name :=
  ((imp.find? (fun p => p.1 == n)).map (·.2)).getD []

def parHas (par : Params) (b : Option Name) : Bool :=
  match b with
  | some n => par.any (fun p => p.1 == n)
  | none => false

/-- The index generator of the parameter branch of `compile_primary`:
`next(index for index, (name, _) in enumerate(parameters) if name ==
lexeme.body)`.  `enumerate` over the parameters *dict* yields
`(index, key)` pairs, and the `(name, _)` loop target unpacks the key
*string*: a two-character key binds `name` to its first character (a
one-character string), any other length raises ValueError, and `next` on
an exhausted generator raises StopIteration (both uncaught, hence
`.crash`).  The generator is lazy, so keys after the first match are never
unpacked. -/
def getArgIndexF : Params → Name → Nat → Except PErr Nat
  | [], _, _ => .error .crash
  | (k, _) :: ps, body, i =>
    match k with
    | [c1, _] => if [c1] = body then .ok i else getArgIndexF ps body (i + 1)
    | _ => .error .crash

/-- `Compiler.operators`. -/
def opsTable : List (List Name) :=
  [["+".toList, "-".toList], ["*".toList, "/".toList],
   ["==".toList, "!=".toList], ["||".toList, "&&".toList]]

/-- `lexeme.body in [op for ops in self.operators[prec:] for op in ops]`. -/
def opMem (lx : Lexeme) (prec : Nat) : Bool :=
  match lx.body with
  | some b => ((opsTable.drop prec).flatten).contains b
  | none => false

/-- `Compiler.operations[body]` (dict lookup; a missing key would raise). -/
def opFor (b : Name) : Except PErr Cmd :=
  if b = "+".toList then .ok .ADD
  else if b = "-".toList then .ok .SUB
  else if b = "*".toList then .ok .MUL
  else if b = "/".toList then .ok .DIV
  else if b = "==".toList then .ok .EQ
  else if b = "!=".toList then .ok .NEQ
  else if b = "||".toList then .ok .OR
  else if b = "&&".toList then .ok .AND
  else .error .crash

/-- Strip trailing characters from the given set (Python `str.rstrip`). -/
def rstripSet (cs : List Char) (l : Name) : Name :=
  (l.reverse.dropWhile (fun c => cs.contains c)).reverse

/-- The escape-resolving index loop shared by the string primary and the
mcfunction location (`offset` from 1 while `offset < len(body) - 1`),
phrased on the suffix starting at the current offset. -/
def unescapeLoop : List Char → Name
  | a :: b :: rest =>
    if a = '\\' then b :: unescapeLoop rest else a :: unescapeLoop (b :: rest)
  | _ => []

def pyUnescape (body : Name) : Name := unescapeLoop (body.drop 1)

/-- `GET_VAR`-less tail of a dotted assignment target: `GET_PROP` for every
middle element, `SET_PROP` for the last. -/
def propChain : Lexeme → List Lexeme → List Cmd
  | lx, [] => [.SET_PROP (lx.body.getD [])]
  | lx, nxt :: rest => .GET_PROP (lx.body.getD []) :: propChain nxt rest

mutual

/-- `Compiler.compile_statement` (the `namespace` argument is only passed
through in the source and is omitted). -/
def compileStatementF : Nat → LexState → Imports → Params → Except PErr (List Cmd × LexState)
  | 0, _, _, _ => .error .fuelOut
  | fuel + 1, st, imp, par =>
    match look st with
    | .error e => .error e
    | .ok lx =>
      if lx.type = some .IDENTIFIER ∧ impHas imp lx.body then
        match compileFunctionCallF fuel st imp par with
        | .error e => .error e
        | .ok (cmds, st1) =>
          match nextL st1 with
          | .error e => .error e
          | .ok (lx2, st2) => if bIs lx2 ";" then .ok (cmds, st2) else .error .cerr
      else if lx.type = some .IDENTIFIER then
        match nextL st with
        | .error e => .error e
        | .ok (_, st1) =>
          match pathLoopF fuel st1 with
          | .error e => .error e
          | .ok (restPath, st2) =>
            match nextL st2 with
            | .error e => .error e
            | .ok (lxEq, st3) =>
              if bIs lxEq "=" then
                match compileExpressionF fuel st3 imp par with
                | .error e => .error e
                | .ok (ecmds, st4) =>
                  match nextL st4 with
                  | .error e => .error e
                  | .ok (lxSemi, st5) =>
                    if bIs lxSemi ";" then
                      match restPath with
                      | [] => .ok (ecmds ++ [.SET_VAR (lx.body.getD [])], st5)
                      | r :: rs =>
                        .ok (ecmds ++ .GET_VAR (lx.body.getD []) :: propChain r rs, st5)
                    else .error .cerr
              else .error .cerr
      else if bIs lx "var" then
        match nextL st with
        | .error e => .error e
        | .ok (_, st1) =>
          match nextL st1 with
          | .error e => .error e
          | .ok (lxName, st2) =>
            if lxName.type = some .IDENTIFIER then
              match nextL st2 with
              | .error e => .error e
              | .ok (lxEq, st3) =>
                if bIs lxEq "=" then
                  match compileExpressionF fuel st3 imp par with
                  | .error e => .error e
                  | .ok (ecmds, st4) =>
                    match nextL st4 with
                    | .error e => .error e
                    | .ok (lxSemi, st5) =>
                      if bIs lxSemi ";" then
                        .ok (ecmds ++ [.DECLARE_VAR (lxName.body.getD [])], st5)
                      else .error .cerr
                else .error .cerr
            else .error .cerr
      else if bIs lx "if" then
        match nextL st with
        | .error e => .error e
        | .ok (_, st1) =>
          match nextL st1 with
          | .error e => .error e
          | .ok (lxP, st2) =>
            if bIs lxP "(" then
              match compileExpressionF fuel st2 imp par with
              | .error e => .error e
              | .ok (ecmds, st3) =>
                match nextL st3 with
                | .error e => .error e
                | .ok (lxQ, st4) =>
                  if bIs lxQ ")" then
                    match nextL st4 with
                    | .error e => .error e
                    | .ok (lxB, st5) =>
                      if bIs lxB "\x7b" then
                        match stmtsLoopF fuel st5 imp par with
                        | .error e => .error e
                        | .ok (block, st6) =>
                          match nextL st6 with
                          | .error e => .error e
                          | .ok (lxE, st7) =>
                            if bIs lxE "\x7d" then .ok (ecmds ++ [.DO_IF block], st7)
                            else .error .cerr
                      else .error .cerr
                  else .error .cerr
            else .error .cerr
      else .error .cerr

/-- The `while lexer.lookahead().body != "}"` statement loops (function body
and if-block share this shape). -/
def stmtsLoopF : Nat → LexState → Imports → Params → Except PErr (List Cmd × LexState)
  | 0, _, _, _ => .error .fuelOut
  | fuel + 1, st, imp, par =>
    match look st with
    | .error e => .error e
    | .ok lx =>
      if bIs lx "\x7d" then .ok ([], st)
      else
        match compileStatementF fuel st imp par with
        | .error e => .error e
        | .ok (c1, st1) =>
          match stmtsLoopF fuel st1 imp par with
          | .error e => .error e
          | .ok (c2, st2) => .ok (c1 ++ c2, st2)

/-- The dotted-path loop of the assignment statement (returns the lexemes
after the leading identifier). -/
def pathLoopF : Nat → LexState → Except PErr (List Lexeme × LexState)
  | 0, _ => .error .fuelOut
  | fuel + 1, st =>
    match look st with
    | .error e => .error e
    | .ok lx =>
      if bIs lx "." then
        match nextL st with
        | .error e => .error e
        | .ok (_, st1) =>
          match nextL st1 with
          | .error e => .error e
          | .ok (lx2, st2) =>
            if lx2.type = some .IDENTIFIER then
              match pathLoopF fuel st2 with
              | .error e => .error e
              | .ok (rest, st3) => .ok (lx2 :: rest, st3)
            else .error .cerr
      else .ok ([], st)

/-- `Compiler.compile_function_call`. -/
def compileFunctionCallF : Nat → LexState → Imports → Params → Except PErr (List Cmd × LexState)
  | 0, _, _, _ => .error .fuelOut
  | fuel + 1, st, imp, par =>
    match nextL st with
    | .error e => .error e
    | .ok (lx, st1) =>
      if impHas imp lx.body then
        match nextL st1 with
        | .error e => .error e
        | .ok (lxP, st2) =>
          if bIs lxP "(" then
            match argsLoopF fuel st2 imp par with
            | .error e => .error e
            | .ok ((acmds, argc), st3) =>
              match nextL st3 with
              | .error e => .error e
              | .ok (lxQ, st4) =>
                if bIs lxQ ")" then
                  .ok (acmds ++ [.CALL (impGet imp (lx.body.getD [])) argc], st4)
                else .error .cerr
          else .error .cerr
      else .error .cerr

/-- The argument loop of `compile_function_call` (with its `break` on a
non-comma lookahead). -/
def argsLoopF : Nat → LexState → Imports → Params → Except PErr ((List Cmd × Nat) × LexState)
  | 0, _, _, _ => .error .fuelOut
  | fuel + 1, st, imp, par =>
    match look st with
    | .error e => .error e
    | .ok lx =>
      if bIs lx ")" then .ok (([], 0), st)
      else
        match compileExpressionF fuel st imp par with
        | .error e => .error e
        | .ok (ecmds, st1) =>
          match look st1 with
          | .error e => .error e
          | .ok lx2 =>
            if bIs lx2 "," then
              match nextL st1 with
              | .error e => .error e
              | .ok (_, st2) =>
                match argsLoopF fuel st2 imp par with
                | .error e => .error e
                | .ok ((more, n), st3) => .ok ((ecmds ++ more, n + 1), st3)
            else .ok ((ecmds, 1), st1)

/-- `Compiler.compile_expression`. -/
def compileExpressionF : Nat → LexState → Imports → Params → Except PErr (List Cmd × LexState)
  | 0, _, _, _ => .error .fuelOut
  | fuel + 1, st, imp, par =>
    match compilePrimaryF fuel st imp par with
    | .error e => .error e
    | .ok (pc, st1) =>
      match compileOperationF fuel 0 st1 imp par with
      | .error e => .error e
      | .ok (oc, st2) => .ok (pc ++ oc, st2)

/-- `Compiler.compile_operation`; the while loop is the tail recursion at the
same precedence. -/
def compileOperationF : Nat → Nat → LexState → Imports → Params → Except PErr (List Cmd × LexState)
  | 0, _, _, _, _ => .error .fuelOut
  | fuel + 1, prec, st, imp, par =>
    match look st with
    | .error e => .error e
    | .ok lx =>
      if opMem lx prec then
        match nextL st with
        | .error e => .error e
        | .ok (opLx, st1) =>
          match compilePrimaryF fuel st1 imp par with
          | .error e => .error e
          | .ok (pc, st2) =>
            match opFor (opLx.body.getD []) with
            | .error e => .error e
            | .ok opc =>
              match compileOperationF fuel
                  (prec + if ((opsTable.drop (prec + 1)).flatten).isEmpty then 0 else 1)
                  st2 imp par with
              | .error e => .error e
              | .ok (rc, st3) =>
                match compileOperationF fuel prec st3 imp par with
                | .error e => .error e
                | .ok (lc, st4) => .ok (pc ++ opc :: (rc ++ lc), st4)
      else .ok ([], st)

/-- `Compiler.compile_primary`. -/
def compilePrimaryF : Nat → LexState → Imports → Params → Except PErr (List Cmd × LexState)
  | 0, _, _, _ => .error .fuelOut
  | fuel + 1, st, imp, par =>
    match look st with
    | .error e => .error e
    | .ok lx =>
      if lx.type = some .IDENTIFIER then
        if impHas imp lx.body then compileFunctionCallF fuel st imp par
        else if parHas par lx.body then
          match getArgIndexF par (lx.body.getD []) 0 with
          | .error e => .error e
          | .ok i =>
            match nextL st with
            | .error e => .error e
            | .ok (_, st1) => .ok ([.GET_ARG i], st1)
        else
          match nextL st with
          | .error e => .error e
          | .ok (_, st1) => .ok ([.GET_VAR (lx.body.getD [])], st1)
      else if lx.type = some .BOOLEAN then
        match nextL st with
        | .error e => .error e
        | .ok (_, st1) =>
          .ok ([.LOAD .Boolean (.b (lx.body == some "true".toList))], st1)
      else if lx.type = some .BYTE then
        match nextL st with
        | .error e => .error e
        | .ok (_, st1) =>
          .ok ([.LOAD .Byte (.i (digitsVal (rstripSet ['B', 'b'] (lx.body.getD []))))], st1)
      else if lx.type = some .SHORT then
        match nextL st with
        | .error e => .error e
        | .ok (_, st1) =>
          .ok ([.LOAD .Short (.i (digitsVal (rstripSet ['S', 's'] (lx.body.getD []))))], st1)
      else if lx.type = some .INT then
        match nextL st with
        | .error e => .error e
        | .ok (_, st1) => .ok ([.LOAD .Int (.i (digitsVal (lx.body.getD [])))], st1)
      else if lx.type = some .LONG then
        match nextL st with
        | .error e => .error e
        | .ok (_, st1) =>
          .ok ([.LOAD .Long (.i (digitsVal (rstripSet ['L', 'l'] (lx.body.getD []))))], st1)
      else if lx.type = some .FLOAT then
        match nextL st with
        | .error e => .error e
        | .ok (_, st1) => .ok ([.LOAD .Float (.fraw (rstripSet ['F', 'f'] (lx.body.getD [])))], st1)
      else if lx.type = some .DOUBLE then
        match nextL st with
        | .error e => .error e
        | .ok (_, st1) => .ok ([.LOAD .Double (.fraw (rstripSet ['D', 'd'] (lx.body.getD [])))], st1)
      else if lx.type = some .STRING then
        match nextL st with
        | .error e => .error e
        | .ok (_, st1) => .ok ([.LOAD .String (.s (pyUnescape (lx.body.getD [])))], st1)
      else .error .cerr

end

/-! ## Declaration-level parsing (`compile_structure`, `compile_block`,
`parse_imports`, `compile_file`) -/

/-- The parameter-list loop shared by the `function` and `mcfunction`
branches of `Compiler.compile_structure` (with its `break` on a non-comma
lookahead).  All three mismatch errors inside the loop construct
`CompilationError` with an extra `lexer.text` argument, a TypeError. -/
def paramsLoopF : Nat → LexState → Params → Except PErr (Params × LexState)
  | 0, _, _ => .error .fuelOut
  | fuel + 1, st, par =>
    match look st with
    | .error e => .error e
    | .ok lx =>
      if bIs lx ")" then .ok (par, st)
      else
        match nextL st with
        | .error e => .error e
        | .ok (lxN, st1) =>
          if lxN.type = some .IDENTIFIER then
            match nextL st1 with
            | .error e => .error e
            | .ok (lxC, st2) =>
              if bIs lxC ":" then
                match nextL st2 with
                | .error e => .error e
                | .ok (lxT, st3) =>
                  if lxT.type = some .TYPE then
                    match getCType (lxT.body.getD []) with
                    | .error e => .error e
                    | .ok ty =>
                      let par1 := dictUpd par (lxN.body.getD []) ty
                      match look st3 with
                      | .error e => .error e
                      | .ok lxNxt =>
                        if bIs lxNxt "," then
                          match nextL st3 with
                          | .error e => .error e
                          | .ok (_, st4) => paramsLoopF fuel st4 par1
                        else .ok (par1, st3)
                  else .error .crash
              else .error .crash
          else .error .crash

/-- Count a character's occurrences. -/
def countCh (c : Char) (l : List Char) : Nat := (l.filter (fun a => a == c)).length

/-- `location.split(":", 2)` unpacked into two names: a ValueError (crash)
when the location holds two or more colons. -/
def splitLocation (loc : Name) : Except PErr (Name × Name) :=
  if ':' ∈ loc then
    if countCh ':' loc ≥ 2 then .error .crash
    else .ok (loc.takeWhile (fun c => c ≠ ':'), (loc.dropWhile (fun c => c ≠ ':')).tail)
  else .ok ("minecraft".toList, loc)

/-- `Compiler.compile_structure`.  The `function`-branch checks for the
function name and `(` also pass `lexer.text` to `CompilationError`
(TypeError, hence `.crash`); the later checks use the regular two-argument
form. -/
def compileStructureF : Nat → LexState → List Name → Imports → Except PErr (FnDesc × LexState)
  | 0, _, _, _ => .error .fuelOut
  | fuel + 1, st, ns, imp =>
    match nextL st with
    | .error e => .error e
    | .ok (lx, st1) =>
      if bIs lx "function" then
        match nextL st1 with
        | .error e => .error e
        | .ok (lxName, st2) =>
          if lxName.type = some .IDENTIFIER then
            match nextL st2 with
            | .error e => .error e
            | .ok (lxP, st3) =>
              if bIs lxP "(" then
                match paramsLoopF fuel st3 [] with
                | .error e => .error e
                | .ok (par, st4) =>
                  match nextL st4 with
                  | .error e => .error e
                  | .ok (lxQ, st5) =>
                    if bIs lxQ ")" then
                      match nextL st5 with
                      | .error e => .error e
                      | .ok (lxC, st6) =>
                        if bIs lxC ":" then
                          match nextL st6 with
                          | .error e => .error e
                          | .ok (lxT, st7) =>
                            if lxT.type = some .TYPE then
                              match getCType (lxT.body.getD []) with
                              | .error e => .error e
                              | .ok retTy =>
                                match nextL st7 with
                                | .error e => .error e
                                | .ok (lxB, st8) =>
                                  if bIs lxB "\x7b" then
                                    match stmtsLoopF fuel st8 imp par with
                                    | .error e => .error e
                                    | .ok (cmds, st9) =>
                                      match nextL st9 with
                                      | .error e => .error e
                                      | .ok (lxE, st10) =>
                                        if bIs lxE "\x7d" then
                                          .ok (.cubent (ns ++ [lxName.body.getD []]) par retTy cmds, st10)
                                        else .error .cerr
                                  else .error .cerr
                            else .error .cerr
                        else .error .cerr
                    else .error .cerr
              else .error .crash
          else .error .crash
      else if bIs lx "mcfunction" then
        match nextL st1 with
        | .error e => .error e
        | .ok (lxLoc, st2) =>
          if lxLoc.type = some .STRING then
            match splitLocation (pyUnescape (lxLoc.body.getD [])) with
            | .error e => .error e
            | .ok (mns, mpath) =>
              match nextL st2 with
              | .error e => .error e
              | .ok (lxName, st3) =>
                if lxName.type = some .IDENTIFIER then
                  match nextL st3 with
                  | .error e => .error e
                  | .ok (lxP, st4) =>
                    if bIs lxP "(" then
                      match paramsLoopF fuel st4 [] with
                      | .error e => .error e
                      | .ok (par, st5) =>
                        match nextL st5 with
                        | .error e => .error e
                        | .ok (lxQ, st6) =>
                          if bIs lxQ ")" then
                            match nextL st6 with
                            | .error e => .error e
                            | .ok (lxC, st7) =>
                              if bIs lxC ":" then
                                match nextL st7 with
                                | .error e => .error e
                                | .ok (lxT, st8) =>
                                  if lxT.type = some .TYPE then
                                    match getCType (lxT.body.getD []) with
                                    | .error e => .error e
                                    | .ok retTy =>
                                      match nextL st8 with
                                      | .error e => .error e
                                      | .ok (lxS, st9) =>
                                        if bIs lxS ";" then
                                          .ok (.mc (ns ++ [lxName.body.getD []]) par retTy
                                              (mns ++ ':' :: mpath), st9)
                                        else .error .cerr
                                  else .error .cerr
                              else .error .cerr
                          else .error .cerr
                    -- unlike the `function` branch, this `'('` mismatch
                    -- constructs the two-argument `CompilationError`
                    else .error .cerr
                else .error .cerr
          else .error .cerr
      else .error .cerr

/-- The `while lexer.lookahead().body != "}"` structure loop of the
namespace block. -/
def structsLoopF : Nat → LexState → List Name → Imports → Except PErr (List FnDesc × LexState)
  | 0, _, _, _ => .error .fuelOut
  | fuel + 1, st, ns, imp =>
    match look st with
    | .error e => .error e
    | .ok lx =>
      if bIs lx "\x7d" then .ok ([], st)
      else
        match compileStructureF fuel st ns imp with
        | .error e => .error e
        | .ok (d, st1) =>
          match structsLoopF fuel st1 ns imp with
          | .error e => .error e
          | .ok (ds, st2) => .ok (d :: ds, st2)

/-- The dotted-namespace loop of `Compiler.compile_block`.  The loop body
consumes the `.` but re-reads the stale `lexeme` variable (always the first
namespace identifier), appending it again without consuming the following
identifier — the source bug is reproduced as-is. -/
def nsDotsF : Nat → LexState → Lexeme → List Name → Except PErr (List Name × LexState)
  | 0, _, _, _ => .error .fuelOut
  | fuel + 1, st, lx0, ns =>
    match look st with
    | .error e => .error e
    | .ok lx =>
      if bIs lx "." then
        match nextL st with
        | .error e => .error e
        | .ok (_, st1) =>
          if lx0.type = some .IDENTIFIER then nsDotsF fuel st1 lx0 (ns ++ [lx0.body.getD []])
          else .error .cerr
      else .ok (ns, st)

/-- `Compiler.compile_block`; `load` requires an empty `{}`, `tick`
consumes only its keyword. -/
def compileBlockF : Nat → LexState → Imports → Except PErr (List FnDesc × LexState)
  | 0, _, _ => .error .fuelOut
  | fuel + 1, st, imp =>
    match nextL st with
    | .error e => .error e
    | .ok (lx, st1) =>
      if bIs lx "namespace" then
        match nextL st1 with
        | .error e => .error e
        | .ok (lx1, st2) =>
          if lx1.type = some .IDENTIFIER then
            match nsDotsF fuel st2 lx1 [lx1.body.getD []] with
            | .error e => .error e
            | .ok (ns, st3) =>
              match nextL st3 with
              | .error e => .error e
              | .ok (lxB, st4) =>
                if bIs lxB "\x7b" then
                  match structsLoopF fuel st4 ns imp with
                  | .error e => .error e
                  | .ok (ds, st5) =>
                    match nextL st5 with
                    | .error e => .error e
                    | .ok (lxE, st6) =>
                      if bIs lxE "\x7d" then .ok (ds, st6) else .error .cerr
                else .error .cerr
          else .error .cerr
      else if bIs lx "load" then
        match nextL st1 with
        | .error e => .error e
        | .ok (lxB, st2) =>
          if bIs lxB "\x7b" then
            match nextL st2 with
            | .error e => .error e
            | .ok (lxE, st3) =>
              if bIs lxE "\x7d" then .ok ([], st3) else .error .cerr
          else .error .cerr
      else if bIs lx "tick" then .ok ([], st1)
      else .error .cerr

/-- The dotted-path loop of `Compiler.parse_imports`, entered right after a
`.` lexeme was consumed; returns the extended path and the lexeme read
after it. -/
def importPathF : Nat → LexState → List Name → Except PErr ((List Name × Lexeme) × LexState)
  | 0, _, _ => .error .fuelOut
  | fuel + 1, st, path =>
    match nextL st with
    | .error e => .error e
    | .ok (lx, st1) =>
      if lx.type = some .IDENTIFIER then
        match nextL st1 with
        | .error e => .error e
        | .ok (lx2, st2) =>
          if bIs lx2 "." then importPathF fuel st2 (path ++ [lx.body.getD []])
          else .ok ((path ++ [lx.body.getD []], lx2), st2)
      else .error .cerr

/-- `Compiler.parse_imports`. -/
def parseImportsF : Nat → LexState → Imports → Except PErr (Imports × LexState)
  | 0, _, _ => .error .fuelOut
  | fuel + 1, st, imp =>
    match look st with
    | .error e => .error e
    | .ok lx =>
      if bIs lx "import" then
        match nextL st with
        | .error e => .error e
        | .ok (_, st1) =>
          match nextL st1 with
          | .error e => .error e
          | .ok (lx1, st2) =>
            if lx1.type = some .IDENTIFIER then
              match nextL st2 with
              | .error e => .error e
              | .ok (lxD, st3) =>
                if bIs lxD "." then
                  match importPathF fuel st3 [lx1.body.getD []] with
                  | .error e => .error e
                  | .ok ((path, lxA), st4) =>
                    if bIs lxA "as" then
                      match nextL st4 with
                      | .error e => .error e
                      | .ok (lxN, st5) =>
                        if lxN.type = some .IDENTIFIER then
                          match nextL st5 with
                          | .error e => .error e
                          | .ok (lxS, st6) =>
                            if bIs lxS ";" then
                              parseImportsF fuel st6 (dictUpd imp (lxN.body.getD []) path)
                            else .error .cerr
                        else .error .cerr
                    else
                      if bIs lxA ";" then
                        parseImportsF fuel st4 (dictUpd imp (path.getLastD []) path)
                      else .error .cerr
                else .error .cerr
            else .error .cerr
      else .ok (imp, st)

/-- The `while lexer.lookahead().type != LexemeType.EOF` loop of
`Compiler.compile_file`, accumulating the descriptors appended to
`self.functions`. -/
def fileLoopF : Nat → LexState → Imports → Except PErr (List FnDesc × LexState)
  | 0, _, _ => .error .fuelOut
  | fuel + 1, st, imp =>
    match look st with
    | .error e => .error e
    | .ok lx =>
      if lx.type = some .EOF then .ok ([], st)
      else
        match compileBlockF fuel st imp with
        | .error e => .error e
        | .ok (ds, st1) =>
          match fileLoopF fuel st1 imp with
          | .error e => .error e
          | .ok (ds2, st2) => .ok (ds ++ ds2, st2)

/-- `Compiler.compile_file` on the already-read source text. -/
def compileFileF (fuel : Nat) (text : List Char) : Except PErr (List FnDesc × LexState) :=
  match parseImportsF fuel (initState text) [] with
  | .error e => .error e
  | .ok (imp, st) => fileLoopF fuel st imp

/-! ## Emitter embedding (`Compiler.write_commands` and helpers)

Emitter-level failures mirror the parser's: `.cerr` is a
`CompilationError` + `return False`, `.crash` an uncaught Python
exception (`stack.pop()` on an empty list, `object_type.has_property`
on a `CubentType` that has no such attribute, `parameters[index]` with an
integer key on a string-keyed dict). -/

inductive EErr where
  | cerr | crash | fuelOut
  deriving DecidableEq, Repr

def nm (n : Name) : String := String.mk n

def joinDot (ps : List Name) : String := String.intercalate "." (ps.map nm)

/-- `".".join(t.path)` for the ten populated `CubentType` attributes. -/
def ctName : CType → String
  | .Void => "Void"
  | .Any => "Any"
  | .Byte => "Byte"
  | .Boolean => "Boolean"
  | .Short => "Short"
  | .Int => "Int"
  | .Long => "Long"
  | .Float => "Float"
  | .Double => "Double"
  | .String => "String"

/-- `t.path[0].lower()`. -/
def ctLower : CType → String
  | .Void => "void"
  | .Any => "any"
  | .Byte => "byte"
  | .Boolean => "boolean"
  | .Short => "short"
  | .Int => "int"
  | .Long => "long"
  | .Float => "float"
  | .Double => "double"
  | .String => "string"

/-- The `Scope` parent chain: frames from innermost to outermost. -/
abbrev Scope := List (List (Name × CType))

/-- `Scope.declare_variable` on the innermost frame. -/
def declareVariable (sc : Scope) (n : Name) (ty : CType) : Option Scope :=
  match sc with
  | [] => none
  | f :: rest => if f.any (fun p => p.1 == n) then none else some ((f ++ [(n, ty)]) :: rest)

/-- `Scope.get_variable`, walking outward through the parent chain. -/
def getVariable (sc : Scope) (n : Name) : Option CType :=
  match sc with
  | [] => none
  | f :: rest =>
    match f.find? (fun p => p.1 == n) with
    | some p => some p.2
    | none => getVariable rest n

/-- `str.find` (first index or `-1`). -/
def pyFind (c : Char) (l : List Char) : Int :=
  match l.findIdx? (fun a => a == c) with
  | some i => (i : Int)
  | none => -1

/-- `str.replace(c, rep)` character-wise. -/
def replCh (c : Char) (rep : List Char) (l : List Char) : List Char :=
  (l.map (fun a => if a == c then rep else [a])).flatten

/-- Characters of a literal operand as the emitted f-strings format it
(Python `str(bool)` capitalises, which only the unreachable generic branch
would show). -/
def litChars : Lit → List Char
  | .i v => intChars v
  | .b v => if v then "True".toList else "False".toList
  | .s v => v
  | .fraw v => v

def litTruthy : Lit → Bool
  | .i v => v ≠ 0
  | .b v => v
  | .s v => v ≠ []
  | .fraw v => v ≠ []

/-- The `raw` literal rendering of the `LOAD` branch of `write_commands`. -/
def litRaw (ty : CType) (lit : Lit) : String :=
  if ty = .String then
    let body := replCh '\\' ['\\', '\\'] (litChars lit)
    if pyFind '\'' body ≠ -1 ∧ pyFind '\'' body > pyFind '"' body then
      nm ('"' :: (replCh '"' ['\\', '"'] body ++ ['"']))
    else
      nm ('\'' :: (replCh '\'' ['\\', '\''] body ++ ['\'']))
  else if ty = .Byte then nm (litChars lit) ++ "B"
  else if ty = .Boolean then (if litTruthy lit then "true" else "false")
  else if ty = .Short then nm (litChars lit) ++ "S"
  else if ty = .Long then nm (litChars lit) ++ "L"
  else if ty = .Float then nm (litChars lit) ++ "F"
  else nm (litChars lit)

def numSourceNames : List String :=
  ["Boolean", "Byte", "Short", "Int", "Long", "Float", "Double"]

def numTargetNames : List String :=
  ["Byte", "Short", "Int", "Long", "Float", "Double"]

/-- `Compiler.write_type_conversion`: `none` models `return False`, `some
lines` a success together with the emitted lines.  For `tgt = .Void` the
source would raise AttributeError on the `.path` access of the Void
1-tuple (see `getCType`); the model returns `none` there, a divergence in
error kind only, on programs that fail either way, and unused below. -/
def writeTypeConversion (cur tgt : CType) (fs : String) : Option (List String) :=
  if ctName cur = ctName tgt ∨ ctName cur = "Any" ∨ ctName tgt = "Any" then some []
  else if numSourceNames.contains (ctName cur) then
    if numTargetNames.contains (ctName tgt) then
      some ["execute store result storage " ++ fs ++ " Stack[-1].Value " ++ ctLower tgt
        ++ " 1.0 run data get storage " ++ fs ++ " Stack[-1].Value"]
    else if ctName tgt = "Boolean" then
      some ["execute store result score 1 cubent.scoreboard run data get storage " ++ fs
          ++ " Stack[-1].Value",
        "execute if score 1 cubent.scoreboard matches 1.. run data modify storage " ++ fs
          ++ " Stack[-1].Value set value true",
        "execute if score 1 cubent.scoreboard matches ..0 run data modify storage " ++ fs
          ++ " Stack[-1].Value set value false"]
    else none
  else none

/-- The linear scan `for target_function in self.functions: if
target_function.path == path: ... break`. -/
def resolveFn (fns : List FnDesc) (path : List Name) : Option FnDesc :=
  fns.find? (fun f => fnPath f == path)

/-- The per-parameter loop of the `CALL` branch: pop one compile-time value
per parameter (empty stack = IndexError), require it convertible, emit the
conversion lines plus the argument move and drop. -/
def callArgsF : List (Name × CType) → List CType → String → Except EErr (List String × List CType)
  | [], stack, _ => .ok ([], stack)
  | (_, pt) :: ps, stack, fs =>
    match stack with
    | [] => .error .crash
    | aty :: rest =>
      match writeTypeConversion aty pt fs with
      | none => .error .cerr
      | some cl =>
        match callArgsF ps rest fs with
        | .error e => .error e
        | .ok (ls, st) =>
          .ok (cl ++ ["data modify storage cubent:storage Arguments append from storage "
              ++ fs ++ " Stack[-1]",
            "data remove storage " ++ fs ++ " Stack[-1]"] ++ ls, st)

/-- The complete `CALL` branch of `write_commands`.  The `argc` recorded in
the command (`command.data[1]`) is accepted but never read — only the
resolved callee's parameter list drives the pops.  Nothing is ever pushed
back, whatever the callee's return type. -/
def doCall (fns : List FnDesc) (fs : String) (stack : List CType) (path : List Name)
    (argc : Nat) : Except EErr (List String × List CType) :=
  match resolveFn fns path with
  | none => .error .cerr
  | some tf =>
    match callArgsF (fnParams tf) stack fs with
    | .error e => .error e
    | .ok (ls, stack') =>
      let inv :=
        match tf with
        | .cubent _ _ _ _ =>
          "function " ++ joinDot path.dropLast ++ ":" ++ nm (path.getLastD [])
        | .mc _ _ _ loc => "function " ++ nm loc
      .ok ("data modify storage cubent:storage Arguments set value []" :: (ls ++ [inv]),
        stack')

/-- Compile-time emitter state: type stack, scope chain, and the supply of
fresh helper names (modelling the `uuid.uuid4().hex` draws of
`write_internal_function`). -/
structure ESt where
  stack : List CType
  scope : Scope
  fresh : List String
  deriving DecidableEq, Repr

def prologueLines (fs : String) : List String :=
  ["scoreboard objectives add cubent.scoreboard dummy",
   "data modify storage " ++ fs ++ " Stack set value []",
   "execute unless data storage " ++ fs ++ " Variables run data modify storage " ++ fs
     ++ " Variables set value \x7b\x7d"]

mutual

/-- The command loop of `Compiler.write_commands`.  Returns the emitted
lines of the current file, the helper files written by nested `DO_IF`
blocks (name plus their lines, via `write_internal_function`), and the
final compile-time state.  `SUB`/`DIV`/`MUL`/`NEQ`/`OR`/`AND` have no
branch in the source `elif` chain and fall through with no effect. -/
def runCmdsF : Nat → List FnDesc → String → List Name → Params → String → List Cmd → ESt →
    Except EErr (List String × List (String × List String) × ESt)
  | 0, _, _, _, _, _, _, _ => .error .fuelOut
  | fuel + 1, fns, uuid, path, par, fs, cmds, st =>
    match cmds with
    | [] => .ok ([], [], st)
    | .LOAD ty lit :: rest =>
      let line := "data modify storage " ++ fs ++ " Stack append value \x7bValue:"
        ++ litRaw ty lit ++ "\x7d"
      match runCmdsF fuel fns uuid path par fs rest ⟨ty :: st.stack, st.scope, st.fresh⟩ with
      | .error e => .error e
      | .ok (ls, hs, st') => .ok (line :: ls, hs, st')
    | .DECLARE_VAR n :: rest =>
      match st.stack with
      | [] => .error .crash
      | ty :: s =>
        match declareVariable st.scope n ty with
        | none => .error .cerr
        | some sc =>
          match runCmdsF fuel fns uuid path par fs rest ⟨s, sc, st.fresh⟩ with
          | .error e => .error e
          | .ok (ls, hs, st') => .ok (ls, hs, st')
    | .SET_VAR n :: rest =>
      match st.stack with
      | [] => .error .crash
      | oty :: s =>
        match getVariable st.scope n with
        | none => .error .cerr
        | some vty =>
          if vty = oty then
            match runCmdsF fuel fns uuid path par fs rest ⟨s, st.scope, st.fresh⟩ with
            | .error e => .error e
            | .ok (ls, hs, st') =>
              .ok (("data modify storage " ++ fs ++ " Variables." ++ nm n
                  ++ " set from storage " ++ fs ++ " Stack[-1]")
                :: ("data remove storage " ++ fs ++ " Stack[-1]") :: ls, hs, st')
          else .error .cerr
    | .GET_VAR n :: rest =>
      match getVariable st.scope n with
      | none => .error .cerr
      | some vty =>
        match runCmdsF fuel fns uuid path par fs rest ⟨vty :: st.stack, st.scope, st.fresh⟩ with
        | .error e => .error e
        | .ok (ls, hs, st') =>
          .ok (("data modify storage " ++ fs ++ " Stack append from storage " ++ fs
              ++ " Variables." ++ nm n) :: ls, hs, st')
    | .GET_PROP _ :: _ =>
      -- `object_type.has_property(...)`: `CubentType` defines no such
      -- attribute, AttributeError (after the pop, which may itself raise).
      .error .crash
    | .SET_PROP _ :: _ => .error .crash
    | .GET_ARG _ :: _ =>
      -- `parameters[index]` with an integer key on the name-keyed dict:
      -- KeyError.
      .error .crash
    | .CALL p argc :: rest =>
      match doCall fns fs st.stack p argc with
      | .error e => .error e
      | .ok (ls, stack') =>
        -- `path = command.data[0]` rebinds the loop's `path` variable, so
        -- the remaining commands (a later `DO_IF`'s helper in particular)
        -- see the callee path; `function_storage` was computed before the
        -- loop and is unaffected
        match runCmdsF fuel fns uuid p par fs rest ⟨stack', st.scope, st.fresh⟩ with
        | .error e => .error e
        | .ok (ls2, hs, st') => .ok (ls ++ ls2, hs, st')
    | .DO_IF block :: rest =>
      match st.stack with
      | [] => .error .crash
      | oty :: s =>
        match writeTypeConversion oty .Boolean fs with
        | none => .error .cerr  -- `return False` without setting `self.error`
        | some cl =>
          match st.fresh with
          | [] => .error .fuelOut  -- fresh-name supply exhausted (model artifact)
          | fname :: fr =>
            match writeCommandsF fuel fns uuid path par block ([] :: st.scope) fr with
            | .error e => .error e
            | .ok (hlines, hhelpers, hst) =>
              match runCmdsF fuel fns uuid path par fs rest ⟨s, st.scope, hst.fresh⟩ with
              | .error e => .error e
              | .ok (ls, hs, st') =>
                .ok (cl ++ ("execute store result score 1 cubent.scoreboard run data get storage "
                      ++ fs ++ " Stack[-1].Value")
                    :: ("data remove storage " ++ fs ++ " Stack[-1]")
                    :: ("execute if score 1 cubent.scoreboard matches 1 run function "
                      ++ uuid ++ ":" ++ fname) :: ls,
                  hhelpers ++ [(fname, hlines)] ++ hs, st')
    | .ADD :: rest =>
      match st.stack with
      | sec :: fst :: s =>
        if ["Byte", "Short", "Int", "Long"].contains (ctName fst)
            ∧ ["Byte", "Short", "Int", "Long"].contains (ctName sec) then
          match runCmdsF fuel fns uuid path par fs rest ⟨.Int :: s, st.scope, st.fresh⟩ with
          | .error e => .error e
          | .ok (ls, hs, st') =>
            .ok (("execute store result score 1 cubent.scoreboard run data get storage "
                  ++ fs ++ " Stack[-1].Value")
                :: ("data remove storage " ++ fs ++ " Stack[-1]")
                :: ("execute store result score 2 cubent.scoreboard run data get storage "
                  ++ fs ++ " Stack[-1].Value")
                :: ("data remove storage " ++ fs ++ " Stack[-1]")
                :: "scoreboard players operation 1 cubent.scoreboard += 2 cubent.scoreboard"
                :: ("data modify storage " ++ fs ++ " Stack append value \x7b\x7d")
                :: ("execute store result storage " ++ fs ++ " Stack[-1].Value "
                  ++ ctLower fst ++ " 1.0 run scoreboard players get 1 cubent.scoreboard")
                :: ls, hs, st')
        else .error .cerr
      | _ => .error .crash
    | .EQ :: rest =>
      match st.stack with
      | _ :: _ :: s =>
        match runCmdsF fuel fns uuid path par fs rest ⟨.Boolean :: s, st.scope, st.fresh⟩ with
        | .error e => .error e
        | .ok (ls, hs, st') =>
          .ok (("execute store success score 1 cubent.scoreboard run data modify storage "
              ++ fs ++ " Stack[-1] set from storage " ++ fs ++ " Stack[-2]")
            :: ("data remove storage " ++ fs ++ " Stack[-1]")
            :: ("execute if score 1 cubent.scoreboard matches 0 run data modify storage "
              ++ fs ++ " Stack[-1].Value set value true")
            :: ("execute if score 1 cubent.scoreboard matches 1 run data modify storage "
              ++ fs ++ " Stack[-1].Value set value false")
            :: ls, hs, st')
      | _ => .error .crash
    | .SUB :: rest => runCmdsF fuel fns uuid path par fs rest st
    | .DIV :: rest => runCmdsF fuel fns uuid path par fs rest st
    | .MUL :: rest => runCmdsF fuel fns uuid path par fs rest st
    | .NEQ :: rest => runCmdsF fuel fns uuid path par fs rest st
    | .OR :: rest => runCmdsF fuel fns uuid path par fs rest st
    | .AND :: rest => runCmdsF fuel fns uuid path par fs rest st

/-- `Compiler.write_commands` (also used by `write_internal_function` for
`DO_IF` helper files): fixed prologue, then the command loop starting from
an empty compile-time stack. -/
def writeCommandsF : Nat → List FnDesc → String → List Name → Params → List Cmd → Scope →
    List String → Except EErr (List String × List (String × List String) × ESt)
  | 0, _, _, _, _, _, _, _ => .error .fuelOut
  | fuel + 1, fns, uuid, path, par, cmds, scope, fresh =>
    let fs := uuid ++ "." ++ joinDot path.dropLast ++ ":" ++ nm (path.getLastD [])
    match runCmdsF fuel fns uuid path par fs cmds ⟨[], scope, fresh⟩ with
    | .error e => .error e
    | .ok (ls, hs, st) => .ok (prologueLines fs ++ ls, hs, st)

end

/-! ## Version gate (`MinecraftVersion`, `Compiler.compile`) -/

/-- Engine version triple (Python ints; parsed versions are nonnegative). -/
structure MinecraftVersion where
  major : Nat
  minor : Nat
  phase : Nat
  deriving DecidableEq, Repr

/-- `MinecraftVersion.__lt__`: a componentwise *or* of the three
comparisons, exactly as the source writes it. -/
def mvLt (a b : MinecraftVersion) : Bool :=
  a.major < b.major || a.minor < b.minor || a.phase < b.phase

def MINIMAL_VERSION : MinecraftVersion := ⟨1, 14, 1⟩

/-- The first check of `Compiler.compile`: it returns `False` with the
version ConfigError before any filesystem operation iff this holds. -/
def versionGateFails (v : MinecraftVersion) : Bool := mvLt v MINIMAL_VERSION

/-- Lexicographic order on (major, minor, phase): what "strictly below
1.14.1" means in the claim. -/
def lexVerLt (a b : MinecraftVersion) : Bool :=
  a.major < b.major ||
    (a.major == b.major && (a.minor < b.minor ||
      (a.minor == b.minor && a.phase < b.phase)))

/-! ## The claimed stack-depth counter (C4) -/

/-- Whether the first declaration found for `p` has a non-Void return type
(the claim's `+1 if the callee's return type is non-Void`). -/
def retNonVoid (fns : List FnDesc) (p : List Name) : Bool :=
  match resolveFn fns p with
  | some tf => !(fnRet tf == .Void)
  | none => false

/-- The claim's per-command depth delta. -/
def cmdDelta (fns : List FnDesc) : Cmd → Int
  | .LOAD _ _ => 1
  | .GET_VAR _ => 1
  | .GET_PROP _ => 1
  | .GET_ARG _ => 1
  | .DECLARE_VAR _ => -1
  | .SET_VAR _ => -1
  | .SET_PROP _ => -1
  | .DO_IF _ => -1
  | .CALL p argc => -(argc : Int) + (if retNonVoid fns p then 1 else 0)
  | _ => -1

def sumDelta (fns : List FnDesc) (l : List Cmd) : Int :=
  (l.map (cmdDelta fns)).sum

/-- Property-access or call command (the commands excluded by the amended
C4 invariant). -/
def isPC : Cmd → Bool
  | .GET_PROP _ => true
  | .SET_PROP _ => true
  | .CALL _ _ => true
  | _ => false

def noPC (l : List Cmd) : Prop := ∀ c ∈ l, isPC c = false

/-- The counter runs from `a` to `b` over `l` without dropping below 0. -/
def seg (fns : List FnDesc) (a b : Int) (l : List Cmd) : Prop :=
  sumDelta fns l = b - a ∧ ∀ p q, l = p ++ q → 0 ≤ a + sumDelta fns p

/-! ## Substring helper and concrete programs used by the claims -/

def startsW : List Char → List Char → Bool
  | [], _ => true
  | _ :: _, [] => false
  | a :: p, b :: l => a == b && startsW p l

def hasSubList (pat : List Char) : List Char → Bool
  | [] => startsW pat []
  | a :: l => startsW pat (a :: l) || hasSubList pat l

def strHasSub (pat s : String) : Bool := hasSubList pat.toList s.data

/-- `namespace demo { function main(): Void { var x = 1 + 2; } }` -/
def demoText : List Char :=
  "namespace demo \x7b function main(): Void \x7b var x = 1 + 2; \x7d \x7d".toList

def demoCmds : List Cmd :=
  [.LOAD .Int (.i 1), .LOAD .Int (.i 2), .ADD, .DECLARE_VAR ['x']]

def demoFn : FnDesc := .cubent ["demo".toList, "main".toList] [] .Void demoCmds

/-- The full pipeline of end-to-end scenario 2: parse `demoText`, then emit
the single user function with build uuid `"u"` and a fresh root scope, as
`Compiler.compile` does. -/
def demoEmit : Except EErr (List String × List (String × List String) × ESt) :=
  match compileFileF 1000 demoText with
  | .ok (fns, _) =>
    match fns with
    | [.cubent p par _ cmds] => writeCommandsF 1000 fns "u" p par cmds [[]] []
    | _ => .error .crash
  | .error _ => .error .crash

def demoLines : List String :=
  ["scoreboard objectives add cubent.scoreboard dummy",
   "data modify storage u.demo:main Stack set value []",
   "execute unless data storage u.demo:main Variables run data modify storage u.demo:main Variables set value \x7b\x7d",
   "data modify storage u.demo:main Stack append value \x7bValue:1\x7d",
   "data modify storage u.demo:main Stack append value \x7bValue:2\x7d",
   "execute store result score 1 cubent.scoreboard run data get storage u.demo:main Stack[-1].Value",
   "data remove storage u.demo:main Stack[-1]",
   "execute store result score 2 cubent.scoreboard run data get storage u.demo:main Stack[-1].Value",
   "data remove storage u.demo:main Stack[-1]",
   "scoreboard players operation 1 cubent.scoreboard += 2 cubent.scoreboard",
   "data modify storage u.demo:main Stack append value \x7b\x7d",
   "execute store result storage u.demo:main Stack[-1].Value int 1.0 run scoreboard players get 1 cubent.scoreboard"]

/-- The amended C1 grammar, written from the corrected claim's words: one
flat operator level and nothing else.  `FlatRun imp par prec st cmds st'`
holds when `cmds` is produced from `st` by the loop "while the lookahead
is an operator of level `prec` or deeper: consume it, parse one primary,
append the operator's command", stopping at `st'` whose lookahead is no
such operator.  At `prec = 0` every operator is accepted, so a
`FlatRun imp par 0` derivation is precisely a flat left-to-right
left-associative parse with no binding-strength distinctions;
`c1_theorem` proves every successful `compileOperationF` run is such a
run. -/
inductive FlatRun (imp : Imports) (par : Params) (prec : Nat) :
    LexState → List Cmd → LexState → Prop
  | stop (st : LexState) (lx : Lexeme) (h : look st = .ok lx)
      (hm : opMem lx prec = false) : FlatRun imp par prec st [] st
  | step (st : LexState) (lx opLx : Lexeme) (st1 : LexState) (pc : List Cmd)
      (st2 : LexState) (opc : Cmd) (rest : List Cmd) (st3 : LexState) (f : Nat)
      (h : look st = .ok lx) (hm : opMem lx prec = true)
      (hn : nextL st = .ok (opLx, st1))
      (hp : compilePrimaryF f st1 imp par = .ok (pc, st2))
      (ho : opFor (opLx.body.getD []) = .ok opc)
      (hr : FlatRun imp par prec st2 rest st3) :
      FlatRun imp par prec st (pc ++ opc :: rest) st3

/-- IR claimed by C1 for `1+2*3==7` (`1 2 3 * + 7 ==`). -/
def c1ClaimedIR : List Cmd :=
  [.LOAD .Int (.i 1), .LOAD .Int (.i 2), .LOAD .Int (.i 3), .MUL, .ADD,
   .LOAD .Int (.i 7), .EQ]

/-- IR the parser actually produces for `1+2*3==7` (`1 2 + 3 * 7 ==`). -/
def c1ActualIR : List Cmd :=
  [.LOAD .Int (.i 1), .LOAD .Int (.i 2), .ADD, .LOAD .Int (.i 3), .MUL,
   .LOAD .Int (.i 7), .EQ]

def parseExpr (text : List Char) : Except PErr (List Cmd) :=
  (compileExpressionF 100 (initState text) [] []).map (·.1)

/-- A file whose only function body is a call statement to a non-Void
external function; it parses, and its emission also succeeds. -/
def c4Text : List Char :=
  "import d.g; namespace d \x7b mcfunction \"foo:g\" g(): Int; function f(): Void \x7b g(); \x7d \x7d".toList

def c4gPath : List Name := ["d".toList, "g".toList]

def c4Fns : List FnDesc :=
  [.mc c4gPath [] .Int "foo:g".toList,
   .cubent ["d".toList, "f".toList] [] .Void [.CALL c4gPath 0]]

/-- `namespace n { function f(): Void {} function f(): Void {} }` -/
def dupText : List Char :=
  "namespace n \x7b function f(): Void \x7b \x7d function f(): Void \x7b \x7d \x7d".toList

def dupFn : FnDesc := .cubent ["n".toList, "f".toList] [] .Void []

/-- Callee and stack for the C5 counterexample: a parameterless external
function with return type Int. -/
def c5Path : List Name := ["m".toList, "g".toList]

def c5Fns : List FnDesc := [.mc c5Path [] .Int "m:g".toList]

/-- Callee for the C5 witness and the C10 concrete conjunct: one Int
parameter, Void return. -/
def c10Fn : FnDesc := .mc c5Path [("p".toList, CType.Int)] .Void "m:g".toList

def c10Fns : List FnDesc := [c10Fn]

def c10Lines : List String :=
  ["data modify storage cubent:storage Arguments set value []",
   "data modify storage cubent:storage Arguments append from storage u Stack[-1]",
   "data remove storage u Stack[-1]",
   "function m:g"]

/-- Rendering of an optional fractional digit part (C9): nothing, or a dot
followed by the fraction digits. -/
def fracRender : Option (List Char) → List Char
  | none => []
  | some f => '.' :: f

/-- Digit characters of `127` (C9 witness input). -/
def byteOkDigits : List Char := "127".toList

/-- Digit characters of `128` (C9 witness input). -/
def byteBadDigits : List Char := "128".toList

/-- Lowercase byte suffix character (C9 witness input). -/
def byteSufLower : Char := 'b'

/-- Uppercase byte suffix character (C9 witness input). -/
def byteSufUpper : Char := 'B'

/-! ## Claim theorems: concrete evaluations -/

/-- C1 counterexample: parsing `1+2*3==7` does not produce the claimed
postfix `1 2 3 * + 7 ==`; the parser emits `ADD` before `MUL`. -/
theorem c1_counterexample :
    parseExpr "1+2*3==7".toList = .ok c1ActualIR ∧ c1ActualIR ≠ c1ClaimedIR :=
  ⟨rfl, by simp [c1ActualIR, c1ClaimedIR]⟩

/-- `opMem` is antitone in the precedence index: an operator of a deeper
level also belongs to every shallower level's acceptance set (the source's
`self.operators[precedence:]` slices shrink as `precedence` grows). -/
theorem opMem_mono {lx : Lexeme} {p q : Nat} (hpq : p ≤ q)
    (h : opMem lx q = true) : opMem lx p = true := by
  cases hb : lx.body with
  | none => rw [opMem, hb] at h; exact Bool.noConfusion h
  | some b =>
    rw [opMem, hb] at h ⊢
    have hdq : opsTable.drop q = (opsTable.drop p).drop (q - p) := by
      rw [List.drop_drop]
      congr 1
      omega
    have hmem : b ∈ (opsTable.drop q).flatten := by
      simpa using h
    obtain ⟨l', hl', hbl'⟩ := List.mem_flatten.mp hmem
    have hl'p : l' ∈ opsTable.drop p := by
      rw [hdq] at hl'
      exact List.drop_subset _ _ hl'
    simpa using List.mem_flatten.mpr ⟨l', hl'p, hbl'⟩

/-- Flat runs concatenate: a run over the deeper level `q` followed by a
run over the shallower level `p` is one run over `p`. -/
theorem flatRun_append {imp : Imports} {par : Params} {p q : Nat} (hpq : p ≤ q) :
    ∀ {st c1 st3}, FlatRun imp par q st c1 st3 →
    ∀ {c2 st4}, FlatRun imp par p st3 c2 st4 →
    FlatRun imp par p st (c1 ++ c2) st4 := by
  intro st c1 st3 h1
  induction h1 with
  | stop st lx h hm =>
    intro c2 st4 h2
    simpa using h2
  | step st lx opLx st1 pc st2 opc rest st3 f h hm hn hp ho hr ih =>
    intro c2 st4 h2
    have hstep := FlatRun.step st lx opLx st1 pc st2 opc (rest ++ c2) st4 f
      h (opMem_mono hpq hm) hn hp ho (ih h2)
    simpa using hstep

/-- C1 (amended): the operator table confers no precedence at all — the
parse is flat and left-to-right.  `compile_operation`'s loop at precedence
0 accepts every operator and each inner recursion hands unaccepted
operators back to an outer loop, so every successful `compileOperationF`
run, at every precedence, is a `FlatRun` of the same level: the postfix
output of `p0 o1 p1 o2 p2 ...` is always `p0 p1 o1 p2 o2 ...`, every
operator left-associating with the whole expression to its left
regardless of level.  Concretely: `1+2*3==7` parses to `1 2 + 3 * 7 ==`
(not the claimed `1 2 3 * + 7 ==`), `1-2-3` to `1 2 - 3 -`, `1*2+3` to
`1 2 * 3 +` (an inverted ladder would need `1 2 3 + *`), `1==2+3` to
`1 2 == 3 +` (any ladder separating `+` from `==` would need
`1 2 3 + ==`), and `1*2==3+4` to `1 2 * 3 == 4 +`. -/
theorem c1_theorem :
    (∀ fuel prec st imp par cmds st',
        compileOperationF fuel prec st imp par = .ok (cmds, st') →
        FlatRun imp par prec st cmds st') ∧
    parseExpr "1+2*3==7".toList = .ok c1ActualIR ∧
    parseExpr "1-2-3".toList =
      .ok [.LOAD .Int (.i 1), .LOAD .Int (.i 2), .SUB, .LOAD .Int (.i 3), .SUB] ∧
    parseExpr "1*2+3".toList =
      .ok [.LOAD .Int (.i 1), .LOAD .Int (.i 2), .MUL, .LOAD .Int (.i 3), .ADD] ∧
    parseExpr "1==2+3".toList =
      .ok [.LOAD .Int (.i 1), .LOAD .Int (.i 2), .EQ, .LOAD .Int (.i 3), .ADD] ∧
    parseExpr "1*2==3+4".toList =
      .ok [.LOAD .Int (.i 1), .LOAD .Int (.i 2), .MUL, .LOAD .Int (.i 3), .EQ,
        .LOAD .Int (.i 4), .ADD] := by
  refine ⟨?_, rfl, rfl, rfl, rfl, rfl⟩
  intro fuel
  induction fuel with
  | zero =>
    intro prec st imp par cmds st' h
    exact Except.noConfusion h
  | succ fuel ih =>
    intro prec st imp par cmds st' h
    simp only [compileOperationF] at h
    cases hLk : look st with
    | error e => rw [hLk] at h; exact Except.noConfusion h
    | ok lx =>
      rw [hLk] at h
      try dsimp only at h
      by_cases hMem : opMem lx prec = true
      · rw [if_pos hMem] at h
        cases hNx : nextL st with
        | error e => rw [hNx] at h; exact Except.noConfusion h
        | ok r1 =>
          obtain ⟨opLx, st1⟩ := r1
          rw [hNx] at h
          try dsimp only at h
          cases hPr : compilePrimaryF fuel st1 imp par with
          | error e => rw [hPr] at h; exact Except.noConfusion h
          | ok r2 =>
            obtain ⟨pc, st2⟩ := r2
            rw [hPr] at h
            try dsimp only at h
            cases hOf : opFor (opLx.body.getD []) with
            | error e => rw [hOf] at h; exact Except.noConfusion h
            | ok opc =>
              rw [hOf] at h
              try dsimp only at h
              cases hRec : compileOperationF fuel
                  (prec + if ((opsTable.drop (prec + 1)).flatten).isEmpty then 0 else 1)
                  st2 imp par with
              | error e => rw [hRec] at h; exact Except.noConfusion h
              | ok r3 =>
                obtain ⟨rc, st3⟩ := r3
                rw [hRec] at h
                try dsimp only at h
                cases hLp : compileOperationF fuel prec st3 imp par with
                | error e => rw [hLp] at h; exact Except.noConfusion h
                | ok r4 =>
                  obtain ⟨lc, st4⟩ := r4
                  rw [hLp] at h
                  try dsimp only at h
                  cases h
                  have hInner := ih _ _ _ _ _ _ hRec
                  have hLoop := ih _ _ _ _ _ _ hLp
                  have hComp := flatRun_append (Nat.le_add_right prec _) hInner hLoop
                  exact FlatRun.step _ _ _ _ _ _ _ _ _ fuel hLk hMem hNx hPr hOf hComp
      · rw [if_neg hMem] at h
        cases h
        exact FlatRun.stop _ _ hLk (by simpa using hMem)

/-- C1 witness: the flat-parse half of `c1_theorem` applied to the
operator tail of `1==2+3` (the state right after the leading primary
`1`), at precedence 0: the run `2 == 3 +` is a `FlatRun`. -/
theorem c1_witness :
    FlatRun [] [] 0 ⟨"==2+3".toList, 1, 0, 1⟩
      [.LOAD .Int (.i 2), .EQ, .LOAD .Int (.i 3), .ADD] ⟨[], 6, 0, 6⟩ :=
  c1_theorem.1 100 0 ⟨"==2+3".toList, 1, 0, 1⟩ [] [] _ _ rfl

/-- C2 counterexample: compiling the hello-world program emits no line that
touches `Variables.x` at all — there is no SET_VAR sequence after the ADD,
contradicting the claimed move+drop for `DECLARE_VAR`. -/
theorem c2_counterexample :
    demoEmit.toOption.map (fun r => r.1.all (fun l => !(strHasSub "Variables.x" l)))
      = some true := rfl

/-- C2 (amended): the `DECLARE_VAR` handler pops the initialiser's
compile-time type and declares the name in the current scope but emits no
runtime lines; `main.mcfunction` is exactly the three prologue lines, the
two integer pushes, and the seven ADD lines, and the compile-time type
stack is empty at the end (with `x : Int` declared). -/
theorem c2_theorem :
    demoEmit = .ok (demoLines, [], ⟨[], [[("x".toList, CType.Int)]], []⟩) := rfl

/-- C3: `MinecraftVersion.__lt__` ors the componentwise comparisons, so the
version gate also rejects versions lexicographically above 1.14.1:
1.15.0 trips the gate (its phase 0 < 1) although it is not below 1.14.1,
while the spec's example 1.13.0 also trips it; the comparison is not even
asymmetric (1.14.1 < 1.15.0 holds too). -/
theorem c3_theorem :
    versionGateFails ⟨1, 15, 0⟩ = true ∧
    lexVerLt ⟨1, 15, 0⟩ MINIMAL_VERSION = false ∧
    versionGateFails ⟨1, 13, 0⟩ = true ∧
    mvLt MINIMAL_VERSION ⟨1, 15, 0⟩ = true := by decide

/-- The parameter branch of `compile_primary` on concrete inputs: with
parameters `(ab: Int, a: Int)` the expression `a` succeeds and emits
`GET_ARG 0` (the two-character key `ab` unpacks to first character `a`,
matched before the scan reaches the key `a`); with parameters `(a: Int)`
the one-character key raises ValueError, and with parameters `(ab: Int)`
the expression `ab` exhausts the generator (StopIteration). -/
theorem compilePrimaryF_param_example :
    compilePrimaryF 10 (initState "a".toList) []
        [("ab".toList, CType.Int), ("a".toList, CType.Int)] =
      .ok ([.GET_ARG 0], ⟨[], 1, 0, 1⟩) ∧
    compilePrimaryF 10 (initState "a".toList) [] [("a".toList, CType.Int)] =
      .error .crash ∧
    compilePrimaryF 10 (initState "ab".toList) [] [("ab".toList, CType.Int)] =
      .error .crash :=
  ⟨rfl, rfl, rfl⟩

/-- C4 counterexample: `import d.g; namespace d { mcfunction "foo:g" g():
Int; function f(): Void { g(); } }` parses, its emission succeeds with an
empty final compile-time stack, yet the claimed counter over `f`'s IR
(`CALL` with argc 0 and non-Void callee) ends at 1, not 0. -/
theorem c4_counterexample :
    (compileFileF 1000 c4Text).map (·.1) = .ok c4Fns ∧
    (writeCommandsF 1000 c4Fns "u" ["d".toList, "f".toList] [] [.CALL c4gPath 0] [[]]
        []).map (fun r => r.2.2.stack) = .ok ([] : List CType) ∧
    sumDelta c4Fns [.CALL c4gPath 0] = 1 :=
  ⟨rfl, rfl, by decide⟩

/-- C5 counterexample: a successful `CALL` of a parameterless callee whose
return type is Int leaves the compile-time stack empty — the return type
is never pushed. -/
theorem c5_counterexample :
    (resolveFn c5Fns c5Path).map fnRet = some CType.Int ∧
    (doCall c5Fns "u.d:f" [] c5Path 0).map (·.2) = .ok ([] : List CType) ∧
    ([] : List CType) ≠ [CType.Int] :=
  ⟨rfl, rfl, by simp⟩

/-- C6: lexing text whose `/` is followed by a non-comment character:
`next()` consumes the `/` and returns Python `None` instead of a
punctuation lexeme (the `elif` chain has no fallthrough for this case), so
`Lexer.next` is not total in the claimed sense. -/
theorem c6_theorem :
    nextTop (initState "1/2".toList) =
      (some ⟨some .INT, ⟨0, 0, 0⟩, some ['1']⟩, ⟨['/', '2'], 1, 0, 1⟩) ∧
    nextTop ⟨['/', '2'], 1, 0, 1⟩ = (none, ⟨['2'], 2, 0, 2⟩) :=
  ⟨rfl, rfl⟩

/-- C7 counterexample: for N = -1 (inside the claimed range), `lex(str(N))`
does not yield an Int lexeme: the leading `-` is emitted as a punctuation
lexeme of its own (type `None`, body `-`). -/
theorem c7_counterexample :
    nextTop (initState "-1".toList) =
      (some ⟨none, ⟨0, 0, 0⟩, some ['-']⟩, ⟨['1'], 1, 0, 1⟩) ∧
    (⟨none, ⟨0, 0, 0⟩, some ['-']⟩ : Lexeme).type ≠ some LexKind.INT :=
  ⟨rfl, by simp⟩

/-- C8 counterexample: a file declaring `function f` twice in the same
namespace is accepted by the parser, which registers both descriptors —
there is no uniqueness check and no error at the second declaration. -/
theorem c8_counterexample :
    (compileFileF 1000 dupText).map (·.1) = .ok [dupFn, dupFn] := rfl

/-- C8 (amended): declarations are appended to `Compiler.functions` with no
uniqueness check; the duplicate-declaration file yields two descriptors
with the same qualified path `n.f`. -/
theorem c8_theorem :
    (compileFileF 1000 dupText).map (fun r => r.1.map fnPath) =
      .ok [["n".toList, "f".toList], ["n".toList, "f".toList]] ∧
    fnPath dupFn = ["n".toList, "f".toList] :=
  ⟨rfl, rfl⟩

/-- C10: the Emitter ignores the `argc` operand of `CALL` entirely — the
result is the same for any two recorded argument counts — and a call site
that supplied 2 arguments to a 1-parameter callee succeeds with no arity
error, leaving the extra value on the compile-time stack. -/
theorem c10_theorem :
    (∀ (fns : List FnDesc) (fs : String) (stack : List CType) (path : List Name)
      (a a' : Nat), doCall fns fs stack path a = doCall fns fs stack path a') ∧
    doCall c10Fns "u" [CType.Int, CType.Int] c5Path 2 = .ok (c10Lines, [CType.Int]) :=
  ⟨fun _ _ _ _ _ _ => rfl, rfl⟩

/-! ## C5: the general CALL stack effect -/

theorem callArgsF_drop (ps : List (Name × CType)) :
    ∀ (stack : List CType) (fs : String) (ls : List String) (st' : List CType),
      callArgsF ps stack fs = .ok (ls, st') →
      st' = stack.drop ps.length ∧ ps.length ≤ stack.length := by
  induction ps with
  | nil =>
    intro stack fs ls st' h
    simp only [callArgsF] at h
    cases h
    simp
  | cons p ps ih =>
    intro stack fs ls st' h
    obtain ⟨pn, pt⟩ := p
    cases stack with
    | nil =>
      simp only [callArgsF] at h
      exact Except.noConfusion h
    | cons a rest =>
      simp only [callArgsF] at h
      split at h
      · exact Except.noConfusion h
      · split at h
        · exact Except.noConfusion h
        · rename_i cl hc r ls2 st2 hr
          have hS : st2 = st' := congrArg Prod.snd (Except.ok.inj h)
          subst hS
          obtain ⟨h1, h2⟩ := ih rest fs ls2 st2 hr
          constructor
          · simp only [List.length_cons, List.drop_succ_cons]
            exact h1
          · simp only [List.length_cons]
            omega

/-- C5 (amended): whenever the CALL branch succeeds on a resolved callee,
the resulting compile-time stack is the input stack with exactly one entry
dropped per callee parameter — nothing is pushed back, whatever the return
type. -/
theorem c5_theorem (fns : List FnDesc) (fs : String) (stack : List CType)
    (path : List Name) (argc : Nat) (tf : FnDesc) (out : List String × List CType)
    (hres : resolveFn fns path = some tf)
    (hok : doCall fns fs stack path argc = .ok out) :
    out.2 = stack.drop (fnParams tf).length ∧ (fnParams tf).length ≤ stack.length := by
  unfold doCall at hok
  split at hok
  · exact Except.noConfusion hok
  · rename_i tf' heq
    rw [hres] at heq
    injection heq with heq'
    subst heq'
    split at hok
    · exact Except.noConfusion hok
    · rename_i ls stack' hargs
      cases hok
      simpa using callArgsF_drop (fnParams tf) stack fs ls stack' hargs

/-- C5 witness: the one-Int-parameter callee `c10Fn` called on a two-entry
stack pops exactly one entry. -/
theorem c5_witness :
    doCall c10Fns "u" [CType.Int, CType.Int] c5Path 2 = .ok (c10Lines, [CType.Int]) ∧
    ((c10Lines, ([CType.Int] : List CType)).2 =
        [CType.Int, CType.Int].drop (fnParams c10Fn).length ∧
      (fnParams c10Fn).length ≤ [CType.Int, CType.Int].length) :=
  ⟨rfl, c5_theorem c10Fns "u" [CType.Int, CType.Int] c5Path 2 c10Fn
    (c10Lines, [CType.Int]) rfl rfl⟩

/-! ## Digit and character lemmas for C7/C9 -/

theorem char_ne_of_toNat_ne {c d : Char} (h : c.toNat ≠ d.toNat) : ¬ c = d :=
  fun he => h (congrArg Char.toNat he)

theorem pyIsDigit_toNat {c : Char} (h : pyIsDigit c = true) :
    48 ≤ c.toNat ∧ c.toNat ≤ 57 := by
  simpa [pyIsDigit] using h

theorem digit_not_space {c : Char} (h : pyIsDigit c = true) : pyIsSpace c = false := by
  obtain ⟨h1, h2⟩ := pyIsDigit_toNat h
  simp only [pyIsSpace, Bool.or_eq_false_iff, Bool.and_eq_false_iff,
    decide_eq_false_iff_not, not_le]
  refine ⟨⟨⟨⟨⟨⟨?_, ?_⟩, ?_⟩, ?_⟩, ?_⟩, ?_⟩, ?_⟩
  · exact char_ne_of_toNat_ne (by rw [show (' ' : Char).toNat = 32 from rfl]; omega)
  · exact char_ne_of_toNat_ne (by rw [show ('\t' : Char).toNat = 9 from rfl]; omega)
  · exact char_ne_of_toNat_ne (by rw [show ('\n' : Char).toNat = 10 from rfl]; omega)
  · exact char_ne_of_toNat_ne (by rw [show ('\r' : Char).toNat = 13 from rfl]; omega)
  · exact char_ne_of_toNat_ne (by rw [show (Char.ofNat 11).toNat = 11 from rfl]; omega)
  · exact char_ne_of_toNat_ne (by rw [show (Char.ofNat 12).toNat = 12 from rfl]; omega)
  · omega

theorem digit_not_alpha {c : Char} (h : pyIsDigit c = true) : pyIsAlpha c = false := by
  obtain ⟨h1, h2⟩ := pyIsDigit_toNat h
  simp only [pyIsAlpha, Bool.or_eq_false_iff, Bool.and_eq_false_iff,
    decide_eq_false_iff_not, not_le]
  omega

theorem digit_ne_nul {c : Char} (h : pyIsDigit c = true) : c ≠ nulChar := by
  obtain ⟨h1, _⟩ := pyIsDigit_toNat h
  exact char_ne_of_toNat_ne (by rw [show nulChar.toNat = 0 from rfl]; omega)

theorem digit_ne_slash {c : Char} (h : pyIsDigit c = true) : c ≠ '/' := by
  obtain ⟨h1, h2⟩ := pyIsDigit_toNat h
  exact char_ne_of_toNat_ne (by rw [show ('/' : Char).toNat = 47 from rfl]; omega)

theorem digit_ne_eqch {c : Char} (h : pyIsDigit c = true) : c ≠ '=' := by
  obtain ⟨h1, h2⟩ := pyIsDigit_toNat h
  exact char_ne_of_toNat_ne (by rw [show ('=' : Char).toNat = 61 from rfl]; omega)

theorem digit_ne_newline {c : Char} (h : pyIsDigit c = true) : c ≠ '\n' := by
  obtain ⟨h1, _⟩ := pyIsDigit_toNat h
  exact char_ne_of_toNat_ne (by rw [show ('\n' : Char).toNat = 10 from rfl]; omega)

theorem digit_ne_dot {c : Char} (h : pyIsDigit c = true) : c ≠ '.' := by
  obtain ⟨h1, h2⟩ := pyIsDigit_toNat h
  exact char_ne_of_toNat_ne (by rw [show ('.' : Char).toNat = 46 from rfl]; omega)

theorem digits_no_dot {l : List Char} (h : ∀ c ∈ l, pyIsDigit c = true) : '.' ∉ l :=
  fun hm => absurd rfl (digit_ne_dot (h _ hm)).symm

theorem digitChar_toNat {d : Nat} (h : d ≤ 9) : (digitChar d).toNat = 48 + d := by
  interval_cases d <;> decide

theorem pyIsDigit_digitChar {d : Nat} (h : d ≤ 9) : pyIsDigit (digitChar d) = true := by
  interval_cases d <;> decide

theorem digitsVal_append_single (l : List Char) (c : Char) :
    digitsVal (l ++ [c]) = 10 * digitsVal l + (c.toNat - 48) := by
  simp [digitsVal, List.foldl_append]

theorem natDecimalAux_zero (fuel : Nat) : natDecimalAux fuel 0 = [] := by
  cases fuel <;> rfl

theorem natDecimalAux_val : ∀ (fuel n : Nat), n ≤ fuel →
    digitsVal (natDecimalAux fuel n) = n := by
  intro fuel
  induction fuel with
  | zero => intro n hn; interval_cases n; rfl
  | succ m ih =>
    intro n hn
    cases n with
    | zero => rw [natDecimalAux_zero]; rfl
    | succ k =>
      have hdiv : (k + 1) / 10 ≤ m := by omega
      show digitsVal (natDecimalAux m ((k + 1) / 10) ++ [digitChar ((k + 1) % 10)]) = k + 1
      rw [digitsVal_append_single, ih _ hdiv, digitChar_toNat (by omega)]
      omega

theorem natDecimalAux_digits : ∀ (fuel n : Nat) (c : Char),
    c ∈ natDecimalAux fuel n → pyIsDigit c = true := by
  intro fuel
  induction fuel with
  | zero => intro n c hc; simp [natDecimalAux] at hc
  | succ m ih =>
    intro n c hc
    cases n with
    | zero => rw [natDecimalAux_zero] at hc; simp at hc
    | succ k =>
      simp only [natDecimalAux, List.mem_append, List.mem_singleton] at hc
      rcases hc with hc | hc
      · exact ih _ _ hc
      · subst hc; exact pyIsDigit_digitChar (by omega)

theorem natDecimal_val (n : Nat) : digitsVal (natDecimal n) = n := by
  unfold natDecimal
  split
  · subst ‹n = 0›; rfl
  · exact natDecimalAux_val n n le_rfl

theorem natDecimal_digits (n : Nat) : ∀ c ∈ natDecimal n, pyIsDigit c = true := by
  unfold natDecimal
  split
  · intro c hc; simp at hc; subst hc; decide
  · exact fun c hc => natDecimalAux_digits n n c hc

theorem natDecimal_ne_nil (n : Nat) : natDecimal n ≠ [] := by
  unfold natDecimal
  split
  · simp
  · cases n with
    | zero => simp_all
    | succ k =>
      show natDecimalAux (k + 1) (k + 1) ≠ []
      simp [natDecimalAux]

/-! ## Lexer-loop lemmas for C7/C9 -/

theorem skipSpaceF_eq_self (fuel : Nat) (s : LexState) (h : pyIsSpace (peekch s) = false) :
    skipSpaceF fuel s = s := by
  cases fuel with
  | zero => rfl
  | succ m => simp [skipSpaceF, h]

theorem skipSpace_eq_self (s : LexState) (h : pyIsSpace (peekch s) = false) :
    skipSpace s = s := skipSpaceF_eq_self _ s h

theorem consume_cons_not_newline (a : Char) (l : List Char) (o ln col : Nat)
    (h : a ≠ '\n') : consume ⟨a :: l, o, ln, col⟩ = ⟨l, o + 1, ln, col + 1⟩ := by
  simp [consume, peekch, h]

theorem numLoopF_spec : ∀ (ds : List Char) (fuel : Nat) (t : List Char) (o ln col : Nat),
    (∀ c ∈ ds, pyIsDigit c = true) → pyIsDigit (t.headD nulChar) = false →
    ds.length ≤ fuel →
    numLoopF fuel ⟨ds ++ t, o, ln, col⟩ = (ds, ⟨t, o + ds.length, ln, col + ds.length⟩) := by
  intro ds
  induction ds with
  | nil =>
    intro fuel t o ln col _ ht _
    cases fuel with
    | zero => rfl
    | succ m =>
      have hpk : peekch ⟨([] : List Char) ++ t, o, ln, col⟩ = t.headD nulChar := by
        simp only [peekch, List.nil_append]
      simp only [numLoopF, hpk, ht]
      simp
  | cons d ds ih =>
    intro fuel t o ln col hd ht hlen
    cases fuel with
    | zero => simp at hlen
    | succ m =>
      have hdd : pyIsDigit d = true := hd d (by simp)
      have hpk : peekch ⟨(d :: ds) ++ t, o, ln, col⟩ = d := by
        simp only [peekch, List.cons_append, List.headD_cons]
      simp only [numLoopF, hpk, hdd, if_true]
      have hcons : consume ⟨(d :: ds) ++ t, o, ln, col⟩ = ⟨ds ++ t, o + 1, ln, col + 1⟩ := by
        simpa using consume_cons_not_newline d (ds ++ t) o ln col (digit_ne_newline hdd)
      rw [hcons,
        ih m t (o + 1) ln (col + 1) (fun c hc => hd c (by simp [hc])) ht (by simpa using hlen)]
      have h1 : o + 1 + ds.length = o + (d :: ds).length := by simp; omega
      have h2 : col + 1 + ds.length = col + (d :: ds).length := by simp; omega
      simp only [h1, h2]

theorem numLoop_spec (ds t : List Char) (o ln col : Nat)
    (hd : ∀ c ∈ ds, pyIsDigit c = true) (ht : pyIsDigit (t.headD nulChar) = false) :
    numLoop ⟨ds ++ t, o, ln, col⟩ = (ds, ⟨t, o + ds.length, ln, col + ds.length⟩) := by
  unfold numLoop
  exact numLoopF_spec ds _ t o ln col hd ht (by simp)

theorem readNumber_spec (ds : List Char) (frac : Option (List Char)) (t : List Char)
    (o ln col : Nat)
    (hd : ∀ c ∈ ds, pyIsDigit c = true)
    (hf : ∀ f, frac = some f → ∀ c ∈ f, pyIsDigit c = true)
    (ht : pyIsDigit (t.headD nulChar) = false)
    (htd : frac = none → t.headD nulChar ≠ '.') :
    readNumber ⟨(ds ++ fracRender frac) ++ t, o, ln, col⟩ =
      readNumberTail ⟨o, ln, col⟩ (ds ++ fracRender frac)
        ⟨t, o + (ds ++ fracRender frac).length, ln, col + (ds ++ fracRender frac).length⟩ := by
  cases frac with
  | none =>
    have hr : (ds ++ fracRender none) ++ t = ds ++ t := by simp [fracRender]
    unfold readNumber
    rw [hr, numLoop_spec ds t o ln col hd ht]
    dsimp only [position]
    rw [if_neg (by simpa [peekch] using htd rfl)]
    simp [fracRender]
  | some f =>
    have hr : (ds ++ fracRender (some f)) ++ t = ds ++ ('.' :: (f ++ t)) := by
      simp [fracRender]
    unfold readNumber
    rw [hr, numLoop_spec ds ('.' :: (f ++ t)) o ln col hd
      (by rw [List.headD_cons]; decide)]
    dsimp only [position]
    rw [if_pos (by simp [peekch])]
    rw [show consume ⟨'.' :: (f ++ t), o + ds.length, ln, col + ds.length⟩ =
        ⟨f ++ t, o + ds.length + 1, ln, col + ds.length + 1⟩ from
      consume_cons_not_newline _ _ _ _ _ (by decide)]
    rw [numLoop_spec f t (o + ds.length + 1) ln (col + ds.length + 1) (hf f rfl) ht]
    have h4 : o + ds.length + 1 + f.length = o + (ds ++ fracRender (some f)).length := by
      simp [fracRender]; omega
    have h5 : col + ds.length + 1 + f.length = col + (ds ++ fracRender (some f)).length := by
      simp [fracRender]; omega
    dsimp only
    rw [h4, h5]
    simp [fracRender]

/-- Entering `Lexer.next` on a digit character dispatches to
`read_number`. -/
theorem nextTop_digit (s : LexState) (h : pyIsDigit (peekch s) = true) :
    nextTop s = (some (readNumber s).1, (readNumber s).2) := by
  unfold nextTop
  simp only [nextF]
  rw [skipSpace_eq_self s (digit_not_space h)]
  rw [if_neg (by simp [digit_ne_nul h]), if_neg (by simp [digit_ne_slash h]),
    if_neg (by simp [digit_ne_eqch h]), if_pos (by simp [h])]

/-- C7 (amended): for every N in [0, 2147483647], lexing the decimal string
of N yields a single Int lexeme whose body is that string, and the next
lexeme is EOF. -/
theorem c7_theorem (N : Nat) (h : N ≤ 2147483647) :
    nextTop (initState (natDecimal N)) =
      (some ⟨some .INT, ⟨0, 0, 0⟩, some (natDecimal N)⟩,
        ⟨[], (natDecimal N).length, 0, (natDecimal N).length⟩) ∧
    nextTop ⟨[], (natDecimal N).length, 0, (natDecimal N).length⟩ =
      (some ⟨some .EOF, ⟨(natDecimal N).length, 0, (natDecimal N).length⟩, none⟩,
        ⟨[], (natDecimal N).length, 0, (natDecimal N).length⟩) := by
  constructor
  · have hdig := natDecimal_digits N
    have hne := natDecimal_ne_nil N
    have hpk : pyIsDigit (peekch (initState (natDecimal N))) = true := by
      cases hc : natDecimal N with
      | nil => exact absurd hc hne
      | cons a l =>
        have ha := hdig a (by rw [hc]; simp)
        simpa [initState, peekch, hc] using ha
    rw [nextTop_digit _ hpk]
    have hrn : readNumber (initState (natDecimal N)) =
        readNumberTail ⟨0, 0, 0⟩ (natDecimal N)
          ⟨[], (natDecimal N).length, 0, (natDecimal N).length⟩ := by
      have hs := readNumber_spec (natDecimal N) none [] 0 0 0 hdig
        (by intro f hf; cases hf) (by decide) (by intro _; decide)
      simpa [initState, fracRender] using hs
    rw [hrn]
    unfold readNumberTail
    rw [show peekch (⟨[], (natDecimal N).length, 0, (natDecimal N).length⟩ : LexState)
        = nulChar from rfl]
    rw [show lowerCh nulChar = nulChar from by decide]
    dsimp only
    rw [if_neg (by decide), if_neg (by decide), if_neg (by decide), if_neg (by decide),
      if_neg (by decide)]
    rw [if_neg (digits_no_dot hdig)]
    rw [if_pos (by rw [natDecimal_val]; omega)]
  · rfl

/-- C7 witness: the amended claim evaluated at the boundary N = 2147483647. -/
theorem c7_witness :
    nextTop (initState (natDecimal 2147483647)) =
      (some ⟨some .INT, ⟨0, 0, 0⟩, some (natDecimal 2147483647)⟩,
        ⟨[], (natDecimal 2147483647).length, 0, (natDecimal 2147483647).length⟩) ∧
    nextTop ⟨[], (natDecimal 2147483647).length, 0, (natDecimal 2147483647).length⟩ =
      (some ⟨some .EOF, ⟨(natDecimal 2147483647).length, 0, (natDecimal 2147483647).length⟩,
          none⟩,
        ⟨[], (natDecimal 2147483647).length, 0, (natDecimal 2147483647).length⟩) :=
  c7_theorem 2147483647 (by decide)

/-- C9: lexing digits (with an optional fractional part) followed by
either suffix character `b` or `B` (the source lowercases the peeked
character before dispatching) yields a Byte lexeme exactly when there is
no fractional part and the value lies in [-128, 127] (the value is a
nonnegative integer, so this is the source's `int(body) + 128 > 255`
check); the lexeme body carries the lowered suffix `b` either way.
Otherwise the lexeme is invalid (type `None`) with the accumulated
body. -/
theorem c9_theorem (sc : Char) (hsc : sc = 'b' ∨ sc = 'B')
    (ip : List Char) (frac : Option (List Char)) (tail : List Char)
    (h1 : ip ≠ []) (h2 : ∀ c ∈ ip, pyIsDigit c = true)
    (h3 : ∀ f, frac = some f → ∀ c ∈ f, pyIsDigit c = true) :
    ((frac = none ∧ (-128 : Int) ≤ (digitsVal ip : Int) ∧ (digitsVal ip : Int) ≤ 127) →
      nextTop (initState ((ip ++ fracRender frac) ++ sc :: tail)) =
        (some ⟨some .BYTE, ⟨0, 0, 0⟩, some (ip ++ ['b'])⟩,
          ⟨tail, ip.length + 1, 0, ip.length + 1⟩)) ∧
    (¬(frac = none ∧ (-128 : Int) ≤ (digitsVal ip : Int) ∧ (digitsVal ip : Int) ≤ 127) →
      nextTop (initState ((ip ++ fracRender frac) ++ sc :: tail)) =
        (some ⟨none, ⟨0, 0, 0⟩, some (ip ++ fracRender frac)⟩,
          ⟨sc :: tail, (ip ++ fracRender frac).length, 0,
            (ip ++ fracRender frac).length⟩)) ∧
    ((∃ lx st', nextTop (initState ((ip ++ fracRender frac) ++ sc :: tail)) =
          (some lx, st') ∧ lx.type = some .BYTE) ↔
      (frac = none ∧ (-128 : Int) ≤ (digitsVal ip : Int) ∧ (digitsVal ip : Int) ≤ 127)) := by
  have hlow : lowerCh sc = 'b' := by rcases hsc with h | h <;> subst h <;> decide
  have hscd : pyIsDigit sc = false := by rcases hsc with h | h <;> subst h <;> decide
  have hscdot : sc ≠ '.' := by rcases hsc with h | h <;> subst h <;> decide
  have hscnl : sc ≠ '\n' := by rcases hsc with h | h <;> subst h <;> decide
  have hpk : pyIsDigit (peekch (initState ((ip ++ fracRender frac) ++ sc :: tail)))
      = true := by
    cases hip : ip with
    | nil => exact absurd hip h1
    | cons a l =>
      have ha := h2 a (by rw [hip]; simp)
      simpa [initState, peekch, hip] using ha
  have hstep : nextTop (initState ((ip ++ fracRender frac) ++ sc :: tail)) =
      (some (readNumberTail ⟨0, 0, 0⟩ (ip ++ fracRender frac)
          ⟨sc :: tail, (ip ++ fracRender frac).length, 0,
            (ip ++ fracRender frac).length⟩).1,
        (readNumberTail ⟨0, 0, 0⟩ (ip ++ fracRender frac)
          ⟨sc :: tail, (ip ++ fracRender frac).length, 0,
            (ip ++ fracRender frac).length⟩).2) := by
    rw [nextTop_digit _ hpk]
    have hs := readNumber_spec ip frac (sc :: tail) 0 0 0 h2 h3
      (by rw [List.headD_cons]; exact hscd)
      (by intro _; rw [List.headD_cons]; exact hscdot)
    simp only [initState, Nat.zero_add] at hs ⊢
    rw [hs]
  rcases frac with _ | f
  · have hbody : ip ++ fracRender none = ip := by simp [fracRender]
    rw [hbody] at hstep ⊢
    by_cases hv : digitsVal ip ≤ 127
    · have hrnt : readNumberTail ⟨0, 0, 0⟩ ip ⟨sc :: tail, ip.length, 0, ip.length⟩ =
          (⟨some .BYTE, ⟨0, 0, 0⟩, some (ip ++ ['b'])⟩,
            ⟨tail, ip.length + 1, 0, ip.length + 1⟩) := by
        unfold readNumberTail
        rw [show peekch (⟨sc :: tail, ip.length, 0, ip.length⟩ : LexState) = sc from rfl,
          hlow]
        dsimp only
        rw [if_pos rfl]
        rw [if_neg (by
          simp only [Bool.or_eq_true, decide_eq_true_eq, not_or]
          exact ⟨digits_no_dot h2, by omega⟩)]
        rw [consume_cons_not_newline sc tail _ _ _ hscnl]
      have hmain : nextTop (initState (ip ++ sc :: tail)) =
          (some ⟨some .BYTE, ⟨0, 0, 0⟩, some (ip ++ ['b'])⟩,
            ⟨tail, ip.length + 1, 0, ip.length + 1⟩) := by
        rw [hstep, hrnt]
      exact ⟨fun _ => hmain, fun hn => absurd ⟨rfl, by omega, by omega⟩ hn,
        ⟨fun _ => ⟨rfl, by omega, by omega⟩, fun _ => ⟨_, _, hmain, rfl⟩⟩⟩
    · have hrnt : readNumberTail ⟨0, 0, 0⟩ ip ⟨sc :: tail, ip.length, 0, ip.length⟩ =
          (⟨none, ⟨0, 0, 0⟩, some ip⟩, ⟨sc :: tail, ip.length, 0, ip.length⟩) := by
        unfold readNumberTail
        rw [show peekch (⟨sc :: tail, ip.length, 0, ip.length⟩ : LexState) = sc from rfl,
          hlow]
        dsimp only
        rw [if_pos rfl]
        rw [if_pos (by
          simp only [Bool.or_eq_true, decide_eq_true_eq]
          exact Or.inr (by omega))]
      have hmain : nextTop (initState (ip ++ sc :: tail)) =
          (some ⟨none, ⟨0, 0, 0⟩, some ip⟩, ⟨sc :: tail, ip.length, 0, ip.length⟩) := by
        rw [hstep, hrnt]
      refine ⟨fun hc => absurd (show digitsVal ip ≤ 127 by exact_mod_cast hc.2.2) hv,
        fun _ => hmain, ⟨?_, fun hc =>
          absurd (show digitsVal ip ≤ 127 by exact_mod_cast hc.2.2) hv⟩⟩
      rintro ⟨lx, st', heq, hty⟩
      rw [hmain] at heq
      have hlx : lx = ⟨none, ⟨0, 0, 0⟩, some ip⟩ := by
        have h' := congrArg Prod.fst heq
        simpa using h'.symm
      rw [hlx] at hty
      exact absurd hty (by simp)
  · have hdot : '.' ∈ ip ++ fracRender (some f) := by simp [fracRender]
    have hrnt : readNumberTail ⟨0, 0, 0⟩ (ip ++ fracRender (some f))
        ⟨sc :: tail, (ip ++ fracRender (some f)).length, 0,
          (ip ++ fracRender (some f)).length⟩ =
        (⟨none, ⟨0, 0, 0⟩, some (ip ++ fracRender (some f))⟩,
          ⟨sc :: tail, (ip ++ fracRender (some f)).length, 0,
            (ip ++ fracRender (some f)).length⟩) := by
      unfold readNumberTail
      rw [show peekch (⟨sc :: tail, (ip ++ fracRender (some f)).length, 0,
          (ip ++ fracRender (some f)).length⟩ : LexState) = sc from rfl,
        hlow]
      dsimp only
      rw [if_pos rfl]
      rw [if_pos (by
        simp only [Bool.or_eq_true, decide_eq_true_eq]
        exact Or.inl hdot)]
    have hmain : nextTop (initState ((ip ++ fracRender (some f)) ++ sc :: tail)) =
        (some ⟨none, ⟨0, 0, 0⟩, some (ip ++ fracRender (some f))⟩,
          ⟨sc :: tail, (ip ++ fracRender (some f)).length, 0,
            (ip ++ fracRender (some f)).length⟩) := by
      rw [hstep, hrnt]
    refine ⟨fun hc => absurd hc.1 (by simp), fun _ => hmain, ⟨?_, fun hc =>
      absurd hc.1 (by simp)⟩⟩
    rintro ⟨lx, st', heq, hty⟩
    rw [hmain] at heq
    have hlx : lx = ⟨none, ⟨0, 0, 0⟩, some (ip ++ fracRender (some f))⟩ := by
      have h' := congrArg Prod.fst heq
      simpa using h'.symm
    rw [hlx] at hty
    exact absurd hty (by simp)

/-- C9 witness: `lex("127b")` and `lex("127B")` yield `Byte("127b")`,
while `lex("128b")` and `lex("128B")` yield an invalid lexeme with body
`128`. -/
theorem c9_witness :
    nextTop (initState ((byteOkDigits ++ fracRender none) ++ 'b' :: [])) =
      (some ⟨some .BYTE, ⟨0, 0, 0⟩, some (byteOkDigits ++ ['b'])⟩,
        ⟨[], byteOkDigits.length + 1, 0, byteOkDigits.length + 1⟩) ∧
    nextTop (initState ((byteOkDigits ++ fracRender none) ++ 'B' :: [])) =
      (some ⟨some .BYTE, ⟨0, 0, 0⟩, some (byteOkDigits ++ ['b'])⟩,
        ⟨[], byteOkDigits.length + 1, 0, byteOkDigits.length + 1⟩) ∧
    nextTop (initState ((byteBadDigits ++ fracRender none) ++ 'b' :: [])) =
      (some ⟨none, ⟨0, 0, 0⟩, some (byteBadDigits ++ fracRender none)⟩,
        ⟨'b' :: [], (byteBadDigits ++ fracRender none).length, 0,
          (byteBadDigits ++ fracRender none).length⟩) ∧
    nextTop (initState ((byteBadDigits ++ fracRender none) ++ 'B' :: [])) =
      (some ⟨none, ⟨0, 0, 0⟩, some (byteBadDigits ++ fracRender none)⟩,
        ⟨'B' :: [], (byteBadDigits ++ fracRender none).length, 0,
          (byteBadDigits ++ fracRender none).length⟩) :=
  ⟨(c9_theorem byteSufLower (Or.inl rfl) byteOkDigits none [] (by decide) (by decide)
      (by intro f hf; cases hf)).1 ⟨rfl, by decide, by decide⟩,
   (c9_theorem byteSufUpper (Or.inr rfl) byteOkDigits none [] (by decide) (by decide)
      (by intro f hf; cases hf)).1 ⟨rfl, by decide, by decide⟩,
   (c9_theorem byteSufLower (Or.inl rfl) byteBadDigits none [] (by decide) (by decide)
      (by intro f hf; cases hf)).2.1 (by decide),
   (c9_theorem byteSufUpper (Or.inr rfl) byteBadDigits none [] (by decide) (by decide)
      (by intro f hf; cases hf)).2.1 (by decide)⟩

/-! ## C4: the depth-counter invariant for parser outputs -/

theorem sumDelta_append (fns : List FnDesc) (l1 l2 : List Cmd) :
    sumDelta fns (l1 ++ l2) = sumDelta fns l1 + sumDelta fns l2 := by
  simp [sumDelta]

theorem noPC_append {l1 l2 : List Cmd} : noPC (l1 ++ l2) ↔ noPC l1 ∧ noPC l2 := by
  simp only [noPC, List.mem_append, or_imp, forall_and]

theorem noPC_cons {c : Cmd} {l : List Cmd} :
    noPC (c :: l) ↔ isPC c = false ∧ noPC l := by
  simp [noPC]

theorem seg_nil (fns : List FnDesc) {a : Int} (h : 0 ≤ a) : seg fns a a [] := by
  refine ⟨by simp [sumDelta], fun p q hpq => ?_⟩
  obtain ⟨hp, _⟩ := List.append_eq_nil.mp hpq.symm
  subst hp
  simpa [sumDelta] using h

theorem seg_single (fns : List FnDesc) (c : Cmd) {a : Int} (h0 : 0 ≤ a)
    (h1 : 0 ≤ a + cmdDelta fns c) : seg fns a (a + cmdDelta fns c) [c] := by
  refine ⟨by simp [sumDelta], fun p q hpq => ?_⟩
  cases p with
  | nil => simpa [sumDelta] using h0
  | cons x xs =>
    have hx : c = x ∧ [] = xs ++ q := by
      have := hpq
      simp only [List.cons_append] at this
      exact ⟨List.head_eq_of_cons_eq this, List.tail_eq_of_cons_eq this⟩
    obtain ⟨rfl, hnil⟩ := hx
    obtain ⟨hxs, _⟩ := List.append_eq_nil.mp hnil.symm
    subst hxs
    simpa [sumDelta] using h1

theorem seg_append (fns : List FnDesc) {a b c : Int} {l1 l2 : List Cmd}
    (h1 : seg fns a b l1) (h2 : seg fns b c l2) : seg fns a c (l1 ++ l2) := by
  obtain ⟨hs1, hp1⟩ := h1
  obtain ⟨hs2, hp2⟩ := h2
  refine ⟨by rw [sumDelta_append, hs1, hs2]; ring, fun p q hpq => ?_⟩
  rcases List.append_eq_append_iff.mp hpq with ⟨e, he1, he2⟩ | ⟨e, he1, he2⟩
  · subst he1
    have := hp2 e q he2
    rw [sumDelta_append, hs1]
    omega
  · subst he1
    exact hp1 p e rfl

theorem opFor_delta (b : Name) (c : Cmd) (fns : List FnDesc) (h : opFor b = .ok c) :
    cmdDelta fns c = -1 := by
  unfold opFor at h
  split_ifs at h <;> first | (cases h; rfl) | exact Except.noConfusion h

theorem propChain_has_setprop (lx : Lexeme) (rest : List Lexeme) :
    ∃ n, Cmd.SET_PROP n ∈ propChain lx rest := by
  induction rest generalizing lx with
  | nil => exact ⟨lx.body.getD [], by simp [propChain]⟩
  | cons r rs ih =>
    obtain ⟨n, hn⟩ := ih r
    exact ⟨n, by simp [propChain, hn]⟩

theorem fnCall_has_call : ∀ (fuel : Nat) (st : LexState) (imp : Imports) (par : Params)
    (cmds : List Cmd) (st' : LexState),
    compileFunctionCallF fuel st imp par = .ok (cmds, st') →
    ∃ p a, Cmd.CALL p a ∈ cmds := by
  intro fuel st imp par cmds st' h
  match fuel with
  | 0 => exact Except.noConfusion h
  | fuel + 1 =>
    simp only [compileFunctionCallF] at h
    repeat' split at h
    all_goals try exact Except.noConfusion h
    cases h
    exact ⟨_, _, List.mem_append_right _ (List.mem_singleton_self _)⟩

theorem seg_unit (fns : List FnDesc) (c : Cmd) {a b : Int} (h0 : 0 ≤ a)
    (h1 : 0 ≤ b) (hb : b = a + cmdDelta fns c) : seg fns a b [c] := by
  subst hb
  exact seg_single fns c h0 h1

theorem seg_step_end (fns : List FnDesc) (c : Cmd) {a : Int} (ha : 0 ≤ a)
    (hd : cmdDelta fns c = -1) {l : List Cmd} (hl : seg fns a (a + 1) l) :
    seg fns a a (l ++ [c]) :=
  seg_append fns hl (seg_unit fns c (by omega) ha (by rw [hd]; ring))

/-- The balanced-counter property of every command-producing parser
function, by induction on fuel: expressions produce net +1, operations and
statements net 0, with all partial sums nonnegative — provided the
produced commands contain no property accesses or calls. -/
theorem parserGood : ∀ fuel : Nat,
    (∀ st imp par cmds st', compilePrimaryF fuel st imp par = .ok (cmds, st') →
      ∀ fns, noPC cmds → ∀ a : Int, 0 ≤ a → seg fns a (a + 1) cmds)
  ∧ (∀ prec st imp par cmds st', compileOperationF fuel prec st imp par = .ok (cmds, st') →
      ∀ fns, noPC cmds → ∀ a : Int, 0 ≤ a → seg fns a a cmds)
  ∧ (∀ st imp par cmds st', compileExpressionF fuel st imp par = .ok (cmds, st') →
      ∀ fns, noPC cmds → ∀ a : Int, 0 ≤ a → seg fns a (a + 1) cmds)
  ∧ (∀ st imp par cmds st', compileStatementF fuel st imp par = .ok (cmds, st') →
      ∀ fns, noPC cmds → ∀ a : Int, 0 ≤ a → seg fns a a cmds)
  ∧ (∀ st imp par cmds st', stmtsLoopF fuel st imp par = .ok (cmds, st') →
      ∀ fns, noPC cmds → ∀ a : Int, 0 ≤ a → seg fns a a cmds) := by
  intro fuel
  induction fuel with
  | zero =>
    refine ⟨?_, ?_, ?_, ?_, ?_⟩
    · intro st imp par cmds st' h
      exact Except.noConfusion h
    · intro prec st imp par cmds st' h
      exact Except.noConfusion h
    · intro st imp par cmds st' h
      exact Except.noConfusion h
    · intro st imp par cmds st' h
      exact Except.noConfusion h
    · intro st imp par cmds st' h
      exact Except.noConfusion h
  | succ fuel ih =>
    obtain ⟨ihP, ihO, ihE, ihS, ihL⟩ := ih
    refine ⟨?_, ?_, ?_, ?_, ?_⟩
    · -- compilePrimaryF
      intro st imp par cmds st' h fns hnp a ha
      simp only [compilePrimaryF] at h
      repeat' split at h
      all_goals try exact Except.noConfusion h
      all_goals first
        | (cases h
           exact seg_unit fns _ ha (by omega) (by simp [cmdDelta]))
        | (obtain ⟨p, ac, hmem⟩ := fnCall_has_call _ _ _ _ _ _ h
           have hf := hnp _ hmem
           simp [isPC] at hf)
    · -- compileOperationF
      intro prec st imp par cmds st' h fns hnp a ha
      simp only [compileOperationF] at h
      cases hLk : look st with
      | error e => rw [hLk] at h; exact Except.noConfusion h
      | ok lx =>
        rw [hLk] at h
        try dsimp only at h
        by_cases hMem : opMem lx prec = true
        · rw [if_pos hMem] at h
          cases hNx : nextL st with
          | error e => rw [hNx] at h; exact Except.noConfusion h
          | ok r1 =>
            obtain ⟨opLx, st1⟩ := r1
            rw [hNx] at h
            try dsimp only at h
            cases hPr : compilePrimaryF fuel st1 imp par with
            | error e => rw [hPr] at h; exact Except.noConfusion h
            | ok r2 =>
              obtain ⟨pc, st2⟩ := r2
              rw [hPr] at h
              try dsimp only at h
              cases hOf : opFor (opLx.body.getD []) with
              | error e => rw [hOf] at h; exact Except.noConfusion h
              | ok opc =>
                rw [hOf] at h
                try dsimp only at h
                cases hRec : compileOperationF fuel
                    (prec + if ((opsTable.drop (prec + 1)).flatten).isEmpty then 0 else 1)
                    st2 imp par with
                | error e => rw [hRec] at h; exact Except.noConfusion h
                | ok r3 =>
                  obtain ⟨rc, st3⟩ := r3
                  rw [hRec] at h
                  try dsimp only at h
                  cases hLp : compileOperationF fuel prec st3 imp par with
                  | error e => rw [hLp] at h; exact Except.noConfusion h
                  | ok r4 =>
                    obtain ⟨lc, st4⟩ := r4
                    rw [hLp] at h
                    try dsimp only at h
                    cases h
                    obtain ⟨hnpP, hnpR⟩ := noPC_append.mp hnp
                    obtain ⟨hnpO, hnpRL⟩ := noPC_cons.mp hnpR
                    obtain ⟨hnpRc, hnpLc⟩ := noPC_append.mp hnpRL
                    have s1 := ihP _ _ _ _ _ hPr fns hnpP a ha
                    have sOp : seg fns (a + 1) a [opc] :=
                      seg_unit fns opc (by omega) ha
                        (by rw [opFor_delta _ _ fns hOf]; ring)
                    have s3 := ihO _ _ _ _ _ _ hRec fns hnpRc a ha
                    have s4 := ihO _ _ _ _ _ _ hLp fns hnpLc a ha
                    exact seg_append fns s1 (seg_append fns sOp (seg_append fns s3 s4))
        · rw [if_neg hMem] at h
          cases h
          exact seg_nil fns ha
    · -- compileExpressionF
      intro st imp par cmds st' h fns hnp a ha
      simp only [compileExpressionF] at h
      cases hPr : compilePrimaryF fuel st imp par with
      | error e => rw [hPr] at h; exact Except.noConfusion h
      | ok r1 =>
        obtain ⟨pc, st1⟩ := r1
        rw [hPr] at h
        try dsimp only at h
        cases hOp : compileOperationF fuel 0 st1 imp par with
        | error e => rw [hOp] at h; exact Except.noConfusion h
        | ok r2 =>
          obtain ⟨oc, st2⟩ := r2
          rw [hOp] at h
          try dsimp only at h
          cases h
          obtain ⟨hnp1, hnp2⟩ := noPC_append.mp hnp
          exact seg_append fns (ihP _ _ _ _ _ hPr fns hnp1 a ha)
            (ihO _ _ _ _ _ _ hOp fns hnp2 (a + 1) (by omega))
    · -- compileStatementF
      intro st imp par cmds st' h fns hnp a ha
      simp only [compileStatementF] at h
      cases hLk : look st with
      | error e => rw [hLk] at h; exact Except.noConfusion h
      | ok lx =>
        rw [hLk] at h
        try dsimp only at h
        by_cases hC1 : lx.type = some LexKind.IDENTIFIER ∧ impHas imp lx.body = true
        · rw [if_pos hC1] at h
          cases hFC : compileFunctionCallF fuel st imp par with
          | error e => rw [hFC] at h; exact Except.noConfusion h
          | ok r1 =>
            obtain ⟨fcmds, st1⟩ := r1
            rw [hFC] at h
            try dsimp only at h
            cases hNx : nextL st1 with
            | error e => rw [hNx] at h; exact Except.noConfusion h
            | ok r2 =>
              obtain ⟨lx2, st2⟩ := r2
              rw [hNx] at h
              try dsimp only at h
              by_cases hSemi : bIs lx2 ";" = true
              · rw [if_pos hSemi] at h
                cases h
                obtain ⟨p, ac, hmem⟩ := fnCall_has_call _ _ _ _ _ _ hFC
                have hf := hnp _ hmem
                simp [isPC] at hf
              · rw [if_neg hSemi] at h
                exact Except.noConfusion h
        · rw [if_neg hC1] at h
          by_cases hC2 : lx.type = some LexKind.IDENTIFIER
          · rw [if_pos hC2] at h
            cases hNx : nextL st with
            | error e => rw [hNx] at h; exact Except.noConfusion h
            | ok r1 =>
              obtain ⟨lxv, st1⟩ := r1
              rw [hNx] at h
              try dsimp only at h
              cases hPath : pathLoopF fuel st1 with
              | error e => rw [hPath] at h; exact Except.noConfusion h
              | ok r2 =>
                obtain ⟨restPath, st2⟩ := r2
                rw [hPath] at h
                try dsimp only at h
                cases hNx2 : nextL st2 with
                | error e => rw [hNx2] at h; exact Except.noConfusion h
                | ok r3 =>
                  obtain ⟨lxEq, st3⟩ := r3
                  rw [hNx2] at h
                  try dsimp only at h
                  by_cases hEq : bIs lxEq "=" = true
                  · rw [if_pos hEq] at h
                    cases hE : compileExpressionF fuel st3 imp par with
                    | error e => rw [hE] at h; exact Except.noConfusion h
                    | ok r4 =>
                      obtain ⟨ecmds, st4⟩ := r4
                      rw [hE] at h
                      try dsimp only at h
                      cases hNx3 : nextL st4 with
                      | error e => rw [hNx3] at h; exact Except.noConfusion h
                      | ok r5 =>
                        obtain ⟨lxS, st5⟩ := r5
                        rw [hNx3] at h
                        try dsimp only at h
                        by_cases hS : bIs lxS ";" = true
                        · rw [if_pos hS] at h
                          cases restPath with
                          | nil =>
                            cases h
                            obtain ⟨hnp1, hnp2⟩ := noPC_append.mp hnp
                            exact seg_step_end fns _ ha (by simp [cmdDelta])
                              (ihE _ _ _ _ _ hE fns hnp1 a ha)
                          | cons r rs =>
                            cases h
                            obtain ⟨n, hn⟩ := propChain_has_setprop r rs
                            have hmem : Cmd.SET_PROP n ∈
                                ecmds ++ Cmd.GET_VAR (lx.body.getD []) :: propChain r rs := by
                              simp [hn]
                            have hf := hnp _ hmem
                            simp [isPC] at hf
                        · rw [if_neg hS] at h
                          exact Except.noConfusion h
                  · rw [if_neg hEq] at h
                    exact Except.noConfusion h
          · rw [if_neg hC2] at h
            by_cases hC3 : bIs lx "var" = true
            · rw [if_pos hC3] at h
              cases hNx : nextL st with
              | error e => rw [hNx] at h; exact Except.noConfusion h
              | ok r1 =>
                obtain ⟨lxK, st1⟩ := r1
                rw [hNx] at h
                try dsimp only at h
                cases hNx2 : nextL st1 with
                | error e => rw [hNx2] at h; exact Except.noConfusion h
                | ok r2 =>
                  obtain ⟨lxN, st2⟩ := r2
                  rw [hNx2] at h
                  try dsimp only at h
                  by_cases hTy : lxN.type = some LexKind.IDENTIFIER
                  · rw [if_pos hTy] at h
                    cases hNx3 : nextL st2 with
                    | error e => rw [hNx3] at h; exact Except.noConfusion h
                    | ok r3 =>
                      obtain ⟨lxEq, st3⟩ := r3
                      rw [hNx3] at h
                      try dsimp only at h
                      by_cases hEq : bIs lxEq "=" = true
                      · rw [if_pos hEq] at h
                        cases hE : compileExpressionF fuel st3 imp par with
                        | error e => rw [hE] at h; exact Except.noConfusion h
                        | ok r4 =>
                          obtain ⟨ecmds, st4⟩ := r4
                          rw [hE] at h
                          try dsimp only at h
                          cases hNx4 : nextL st4 with
                          | error e => rw [hNx4] at h; exact Except.noConfusion h
                          | ok r5 =>
                            obtain ⟨lxS, st5⟩ := r5
                            rw [hNx4] at h
                            try dsimp only at h
                            by_cases hS : bIs lxS ";" = true
                            · rw [if_pos hS] at h
                              cases h
                              obtain ⟨hnp1, hnp2⟩ := noPC_append.mp hnp
                              exact seg_step_end fns _ ha (by simp [cmdDelta])
                                (ihE _ _ _ _ _ hE fns hnp1 a ha)
                            · rw [if_neg hS] at h
                              exact Except.noConfusion h
                      · rw [if_neg hEq] at h
                        exact Except.noConfusion h
                  · rw [if_neg hTy] at h
                    exact Except.noConfusion h
            · rw [if_neg hC3] at h
              by_cases hC4 : bIs lx "if" = true
              · rw [if_pos hC4] at h
                cases hNx : nextL st with
                | error e => rw [hNx] at h; exact Except.noConfusion h
                | ok r1 =>
                  obtain ⟨lxK, st1⟩ := r1
                  rw [hNx] at h
                  try dsimp only at h
                  cases hNx2 : nextL st1 with
                  | error e => rw [hNx2] at h; exact Except.noConfusion h
                  | ok r2 =>
                    obtain ⟨lxP, st2⟩ := r2
                    rw [hNx2] at h
                    try dsimp only at h
                    by_cases hP : bIs lxP "(" = true
                    · rw [if_pos hP] at h
                      cases hE : compileExpressionF fuel st2 imp par with
                      | error e => rw [hE] at h; exact Except.noConfusion h
                      | ok r3 =>
                        obtain ⟨ecmds, st3⟩ := r3
                        rw [hE] at h
                        try dsimp only at h
                        cases hNx3 : nextL st3 with
                        | error e => rw [hNx3] at h; exact Except.noConfusion h
                        | ok r4 =>
                          obtain ⟨lxQ, st4⟩ := r4
                          rw [hNx3] at h
                          try dsimp only at h
                          by_cases hQ : bIs lxQ ")" = true
                          · rw [if_pos hQ] at h
                            cases hNx4 : nextL st4 with
                            | error e => rw [hNx4] at h; exact Except.noConfusion h
                            | ok r5 =>
                              obtain ⟨lxB, st5⟩ := r5
                              rw [hNx4] at h
                              try dsimp only at h
                              by_cases hB : bIs lxB "\x7b" = true
                              · rw [if_pos hB] at h
                                cases hL : stmtsLoopF fuel st5 imp par with
                                | error e => rw [hL] at h; exact Except.noConfusion h
                                | ok r6 =>
                                  obtain ⟨block, st6⟩ := r6
                                  rw [hL] at h
                                  try dsimp only at h
                                  cases hNx5 : nextL st6 with
                                  | error e => rw [hNx5] at h; exact Except.noConfusion h
                                  | ok r7 =>
                                    obtain ⟨lxE, st7⟩ := r7
                                    rw [hNx5] at h
                                    try dsimp only at h
                                    by_cases hEnd : bIs lxE "\x7d" = true
                                    · rw [if_pos hEnd] at h
                                      cases h
                                      obtain ⟨hnp1, hnp2⟩ := noPC_append.mp hnp
                                      exact seg_step_end fns _ ha (by simp [cmdDelta])
                                        (ihE _ _ _ _ _ hE fns hnp1 a ha)
                                    · rw [if_neg hEnd] at h
                                      exact Except.noConfusion h
                              · rw [if_neg hB] at h
                                exact Except.noConfusion h
                          · rw [if_neg hQ] at h
                            exact Except.noConfusion h
                    · rw [if_neg hP] at h
                      exact Except.noConfusion h
              · rw [if_neg hC4] at h
                exact Except.noConfusion h
    · -- stmtsLoopF
      intro st imp par cmds st' h fns hnp a ha
      simp only [stmtsLoopF] at h
      cases hLk : look st with
      | error e => rw [hLk] at h; exact Except.noConfusion h
      | ok lx =>
        rw [hLk] at h
        try dsimp only at h
        by_cases hEnd : bIs lx "\x7d" = true
        · rw [if_pos hEnd] at h
          cases h
          exact seg_nil fns ha
        · rw [if_neg hEnd] at h
          cases hSt : compileStatementF fuel st imp par with
          | error e => rw [hSt] at h; exact Except.noConfusion h
          | ok r1 =>
            obtain ⟨c1, st1⟩ := r1
            rw [hSt] at h
            try dsimp only at h
            cases hLp : stmtsLoopF fuel st1 imp par with
            | error e => rw [hLp] at h; exact Except.noConfusion h
            | ok r2 =>
              obtain ⟨c2, st2⟩ := r2
              rw [hLp] at h
              try dsimp only at h
              cases h
              obtain ⟨hnp1, hnp2⟩ := noPC_append.mp hnp
              exact seg_append fns (ihS _ _ _ _ _ hSt fns hnp1 a ha)
                (ihL _ _ _ _ _ hLp fns hnp2 a ha)

/-- The commands of any `cubent` descriptor produced by
`compile_structure` come from a statement loop run. -/
theorem structGood_cubent : ∀ (fuel : Nat) (st : LexState) (ns : List Name) (imp : Imports)
    (d : FnDesc) (st' : LexState),
    compileStructureF fuel st ns imp = .ok (d, st') →
    ∀ (p : List Name) (par : Params) (r : CType) (cmds : List Cmd),
    d = .cubent p par r cmds →
    ∃ (f0 : Nat) (s0 : LexState) (i0 : Imports) (p0 : Params) (s1 : LexState),
      stmtsLoopF f0 s0 i0 p0 = .ok (cmds, s1) := by
  intro fuel st ns imp d st' h p par r cmds hd
  match fuel with
  | 0 => exact Except.noConfusion h
  | fuel + 1 =>
    simp only [compileStructureF] at h
    repeat' split at h
    all_goals try exact Except.noConfusion h
    all_goals cases h
    · injection hd with h1 h2 h3 h4
      subst h4
      exact ⟨_, _, _, _, _, by assumption⟩
    · exact FnDesc.noConfusion hd

theorem structsLoop_mem : ∀ (fuel : Nat) (st : LexState) (ns : List Name) (imp : Imports)
    (ds : List FnDesc) (st' : LexState),
    structsLoopF fuel st ns imp = .ok (ds, st') →
    ∀ d ∈ ds, ∃ (f0 : Nat) (s0 s1 : LexState),
      compileStructureF f0 s0 ns imp = .ok (d, s1) := by
  intro fuel
  induction fuel with
  | zero => intro st ns imp ds st' h; exact Except.noConfusion h
  | succ fuel ih =>
    intro st ns imp ds st' h
    simp only [structsLoopF] at h
    repeat' split at h
    all_goals try exact Except.noConfusion h
    all_goals cases h
    · intro d hd
      simp at hd
    · intro d hd
      rename_i r1 st1 hStruct r2 st2 hLoop
      rcases List.mem_cons.mp hd with rfl | hmem
      · exact ⟨_, _, _, hStruct⟩
      · exact ih _ _ _ _ _ hLoop d hmem

theorem blockGood_mem : ∀ (fuel : Nat) (st : LexState) (imp : Imports)
    (ds : List FnDesc) (st' : LexState),
    compileBlockF fuel st imp = .ok (ds, st') →
    ∀ d ∈ ds, ∃ (f0 : Nat) (s0 : LexState) (ns0 : List Name) (s1 : LexState),
      compileStructureF f0 s0 ns0 imp = .ok (d, s1) := by
  intro fuel st imp ds st' h d hd
  match fuel with
  | 0 => exact Except.noConfusion h
  | fuel + 1 =>
    simp only [compileBlockF] at h
    repeat' split at h
    all_goals try exact Except.noConfusion h
    all_goals cases h
    all_goals try (simp at hd)
    obtain ⟨f0, s0, s1, hS⟩ := structsLoop_mem _ _ _ _ _ _ (by assumption) d hd
    exact ⟨f0, s0, _, s1, hS⟩

theorem fileLoop_mem : ∀ (fuel : Nat) (st : LexState) (imp : Imports)
    (ds : List FnDesc) (st' : LexState),
    fileLoopF fuel st imp = .ok (ds, st') →
    ∀ d ∈ ds, ∃ (f0 : Nat) (s0 : LexState) (s1 : LexState) (ds0 : List FnDesc),
      compileBlockF f0 s0 imp = .ok (ds0, s1) ∧ d ∈ ds0 := by
  intro fuel
  induction fuel with
  | zero => intro st imp ds st' h; exact Except.noConfusion h
  | succ fuel ih =>
    intro st imp ds st' h
    simp only [fileLoopF] at h
    repeat' split at h
    all_goals try exact Except.noConfusion h
    all_goals cases h
    · intro d hd
      simp at hd
    · intro d hd
      rename_i r1 st1 hBlock r2 st2 hLoop
      rcases List.mem_append.mp hd with hmem | hmem
      · exact ⟨_, _, _, _, hBlock, hmem⟩
      · exact ih _ _ _ _ hLoop d hmem

/-- C4 (amended): for every source file the Parser accepts, every parsed
user function whose command list contains no `GET_PROP`, `SET_PROP`, or
`CALL` commands satisfies the claimed depth-counter invariant: the counter
is ≥ 0 after every prefix and exactly 0 at the end. -/
theorem c4_theorem (fuel : Nat) (text : List Char) (fns : List FnDesc) (stEnd : LexState)
    (h : compileFileF fuel text = .ok (fns, stEnd))
    (p : List Name) (par : Params) (r : CType) (cmds : List Cmd)
    (hmem : FnDesc.cubent p par r cmds ∈ fns)
    (hnp : noPC cmds) :
    sumDelta fns cmds = 0 ∧ ∀ pre post, cmds = pre ++ post → 0 ≤ sumDelta fns pre := by
  unfold compileFileF at h
  split at h
  · exact Except.noConfusion h
  · rename_i imp st hImp
    obtain ⟨f0, s0, s1, ds0, hBlock, hmem0⟩ := fileLoop_mem _ _ _ _ _ h _ hmem
    obtain ⟨f1, s2, ns0, s3, hStruct⟩ := blockGood_mem _ _ _ _ _ hBlock _ hmem0
    obtain ⟨f2, s4, i0, p0, s5, hLoop⟩ :=
      structGood_cubent _ _ _ _ _ _ hStruct p par r cmds rfl
    have hseg : seg fns 0 0 cmds :=
      (parserGood f2).2.2.2.2 _ _ _ _ _ hLoop fns hnp 0 le_rfl
    obtain ⟨hsum, hpre⟩ := hseg
    refine ⟨by simpa using hsum, fun pre post hpp => by simpa using hpre pre post hpp⟩

/-- C4 witness: the amended invariant holds for the parsed hello-world
function (`var x = 1 + 2;`). -/
theorem c4_witness :
    sumDelta [demoFn] demoCmds = 0 ∧
    ∀ pre post, demoCmds = pre ++ post → 0 ≤ sumDelta [demoFn] pre :=
  c4_theorem 1000 demoText [demoFn] ⟨[], 59, 0, 59⟩ (by rfl)
    ["demo".toList, "main".toList] [] CType.Void demoCmds
    (by simp [demoFn]) (by unfold noPC; decide)
